import Mathlib

/-!
Verification of the GATF agent-validation framework against its specification.

Each component touched by a claim is shallowly embedded: Python floats are
modelled as rationals, Python exceptions as `Except` results, Python dicts
as ordered association lists, and wall-clock time as an explicit rational
parameter supplied by the caller.
-/

set_option autoImplicit false

namespace Gatf

/-! ## Quality validation engine: numeric accuracy
Embeds `QualityValidator._calculate_accuracy` (quality_validator.py), restricted
to the numeric branch reachable for two numeric arguments: the exact-match
early return, then the expected-zero guard, then `1 - min(1, |out-exp|/|exp|)`. -/

def calculateAccuracyNum (output expected : ℚ) : ℚ :=
  -- `if output == expected: return 1.0`
  if output = expected then 1
  -- numeric branch: `if expected == 0: return 1.0 if output == 0 else 0.0`
  else if expected = 0 then (if output = 0 then 1 else 0)
  -- `return 1 - min(1, abs(output - expected) / abs(expected))`
  else 1 - min 1 (|output - expected| / |expected|)

/-! ## Trust framework: badge assignment
Embeds `TrustFramework._initialize_badge_requirements` and
`TrustFramework._assign_badges` (trust_framework.py).  Badge expiry dates and
the human-readable `requirements_met` strings are not modelled (they carry no
logic); scores are rationals, metric presence is the key list of the metrics
dict, domains the list passed to `_assign_badges`. -/

inductive BadgeType where
  | bronze
  | silver
  | gold
  | platinum
  | domain_expert
  deriving DecidableEq, Repr

structure BadgeRequirement where
  min_score : ℚ
  min_domains : ℕ
  required_metrics : List String
  min_test_cases : ℕ
  deriving Repr

/-- Requirement table of `_initialize_badge_requirements` for the four general
badges; the `DOMAIN_EXPERT` entry of the table is embedded separately below
because it has a different shape in the source. -/
def badgeRequirements : BadgeType → BadgeRequirement
  | .bronze => ⟨50, 1, ["accuracy", "consistency"], 10⟩
  | .silver => ⟨70, 2, ["accuracy", "consistency", "reliability"], 50⟩
  | .gold => ⟨85, 3, ["accuracy", "consistency", "reliability", "robustness"], 100⟩
  | .platinum => ⟨95, 5, ["accuracy", "consistency", "reliability", "robustness", "fairness"], 500⟩
  | .domain_expert => ⟨0, 0, [], 0⟩

/-- Expert-badge entry of the requirement table: `min_domain_score`. -/
def expertMinDomainScore : ℚ := 90

structure TrustBadge where
  badge_type : BadgeType
  domain : Option String
  score : ℚ
  deriving DecidableEq, Repr

/-- One iteration body of the general-badge loop in `_assign_badges`: all four
`continue` guards, negated into a single conjunction. -/
def meetsBadgeRequirements (overall_score : ℚ) (metrics : List String)
    (num_test_cases : ℕ) (domains : List String) (t : BadgeType) : Bool :=
  let r := badgeRequirements t
  !(overall_score < r.min_score) &&
  !(domains.length < r.min_domains) &&
  !(num_test_cases < r.min_test_cases) &&
  r.required_metrics.all (fun m => metrics.contains m)

/-- The `for badge_type in [PLATINUM, GOLD, SILVER, BRONZE]` loop with its
`break` after the first badge appended. -/
def generalBadgeLoop (overall_score : ℚ) (metrics : List String)
    (num_test_cases : ℕ) (domains : List String) : List BadgeType → List TrustBadge
  | [] => []
  | t :: rest =>
    if meetsBadgeRequirements overall_score metrics num_test_cases domains t then
      [⟨t, none, overall_score⟩]
    else
      generalBadgeLoop overall_score metrics num_test_cases domains rest

/-- Embeds `TrustFramework._assign_badges`: the general-badge loop over the
descending badge order, then one `DOMAIN_EXPERT` badge per domain whose score
reaches `min_domain_score`. -/
def assignBadges (overall_score : ℚ) (metrics : List String)
    (num_test_cases : ℕ) (domains : List String)
    (domain_scores : List (String × ℚ)) : List TrustBadge :=
  generalBadgeLoop overall_score metrics num_test_cases domains
      [.platinum, .gold, .silver, .bronze] ++
    domain_scores.filterMap (fun ds =>
      if expertMinDomainScore ≤ ds.2 then
        some ⟨.domain_expert, some ds.1, ds.2⟩
      else none)

/-- A badge is a general badge when it is one of Platinum/Gold/Silver/Bronze. -/
def TrustBadge.isGeneral (b : TrustBadge) : Bool :=
  b.badge_type ≠ BadgeType.domain_expert

/-! ## Configuration validation
Embeds `PlatformConfig.validate` and `GATFConfig._validate_config` (config.py).
Python string truthiness (`not self.api_key` is true for both `None` and the
empty string) is modelled explicitly.  Errors are `Except.error` with the
message category; weights and badge thresholds are ordered key/value lists. -/

/-- Truthiness of an optional Python string: `None` and `""` are falsy. -/
def pyStrTruthy : Option String → Bool
  | none => false
  | some s => s ≠ ""

structure PlatformConfig where
  enabled : Bool := false
  base_url : Option String := none
  api_key : Option String := none
  timeout : ℕ := 30
  retry_attempts : ℕ := 3
  retry_delay : ℕ := 1
  deriving Repr

/-- Embeds `PlatformConfig.validate`: enabled platforms need a truthy API key
and a truthy base URL. -/
def PlatformConfig.validate (c : PlatformConfig) : Except String Unit :=
  if c.enabled && !pyStrTruthy c.api_key then
    .error "API key required when platform is enabled"
  else if c.enabled && !pyStrTruthy c.base_url then
    .error "Base URL required when platform is enabled"
  else .ok ()

/-- Shipped default trust-scoring weights of `TrustScoringConfig.weights`. -/
def defaultTrustWeights : List (String × ℚ) :=
  [("quality", 25/100), ("bias", 20/100), ("security", 20/100),
   ("compliance", 20/100), ("fairness", 15/100)]

/-- Shipped default badge thresholds of `TrustScoringConfig.badge_thresholds`. -/
def defaultBadgeThresholds : List (String × ℚ) :=
  [("basic", 60/100), ("validated", 75/100), ("certified", 85/100), ("premium", 95/100)]

/-- First platform (in declaration order) whose own validation fails, if any:
the `for platform_name, platform_config in self.platforms.items()` loop. -/
def validatePlatforms : List (String × PlatformConfig) → Except String Unit
  | [] => .ok ()
  | (name, c) :: rest =>
    match c.validate with
    | .error e => .error ("Invalid " ++ name ++ " configuration: " ++ e)
    | .ok _ => validatePlatforms rest

/-- First badge threshold outside `[0, 1]`, if any: the
`for threshold_name, threshold_value in ...` loop of `_validate_config`. -/
def validateBadgeThresholds : List (String × ℚ) → Except String Unit
  | [] => .ok ()
  | (name, v) :: rest =>
    if !(0 ≤ v ∧ v ≤ 1) then
      .error ("Badge threshold " ++ name ++ " must be between 0 and 1")
    else validateBadgeThresholds rest

/-- Embeds `GATFConfig._validate_config`: platform validation, then the
weight-sum invariant `abs(total - 1.0) > 0.001`, then badge-threshold ranges. -/
def validateConfig (platforms : List (String × PlatformConfig))
    (weights : List (String × ℚ)) (badge_thresholds : List (String × ℚ)) :
    Except String Unit :=
  match validatePlatforms platforms with
  | .error e => .error e
  | .ok _ =>
    let total := (weights.map Prod.snd).sum
    if |total - 1| > 1/1000 then
      .error "Trust scoring weights must sum to 1.0"
    else validateBadgeThresholds badge_thresholds

/-! ## Token-bucket rate limiter
Embeds `TokenBucket` and the token-bucket arm of `RateLimiter._create_limiter`
(rate_limiting.py).  `time.time()` readings are passed in explicitly; token
counts are rationals as in the float-valued source. -/

/-- Python builtin `min(a, b)` on two numbers. -/
def pymin (a b : ℚ) : ℚ := if a ≤ b then a else b

structure TokenBucket where
  capacity : ℚ
  refill_rate : ℚ
  burst_size : ℚ
  tokens : ℚ
  last_refill : ℚ
  deriving Repr

/-- Embeds `TokenBucket.__init__` (with `burst_size or capacity` defaulting). -/
def TokenBucket.init (capacity : ℚ) (refill_rate : ℚ) (burst_size : Option ℚ)
    (now : ℚ) : TokenBucket :=
  ⟨capacity, refill_rate, burst_size.getD capacity, capacity, now⟩

/-- Embeds `TokenBucket._refill`: add `elapsed * refill_rate` tokens, capped at
capacity, and reset the refill timestamp. -/
def TokenBucket.refill (b : TokenBucket) (now : ℚ) : TokenBucket :=
  { b with
    tokens := pymin b.capacity (b.tokens + (now - b.last_refill) * b.refill_rate)
    last_refill := now }

/-- Embeds `TokenBucket.consume`: refill, then subtract if enough tokens are
available, else fail with `retry_after = (needed - available) / refill_rate`. -/
def TokenBucket.consume (b : TokenBucket) (n : ℕ) (now : ℚ) :
    (Bool × Option ℚ) × TokenBucket :=
  let b := b.refill now
  if (n : ℚ) ≤ b.tokens then
    ((true, none), { b with tokens := b.tokens - n })
  else
    ((false, some ((n - b.tokens) / b.refill_rate)), b)

/-- Token-bucket arm of `RateLimiter._create_limiter`: capacity is
`max_requests` and the refill rate is `max_requests / time_window`. -/
def createTokenBucketLimiter (max_requests time_window : ℕ)
    (burst_size : Option ℚ) (now : ℚ) : TokenBucket :=
  TokenBucket.init max_requests ((max_requests : ℚ) / time_window) burst_size now

/-- A sequence of single-token consumes at the given clock readings, returning
each outcome in order together with the final bucket state. -/
def consumeSeq (b : TokenBucket) : List ℚ → List (Bool × Option ℚ) × TokenBucket
  | [] => ([], b)
  | t :: ts =>
    let step := b.consume 1 t
    let rest := consumeSeq step.2 ts
    (step.1 :: rest.1, rest.2)

/-! ## VOS primitives
Embeds `PrimitiveStatus`, `PrimitiveResult`, `ComposedPrimitive.execute` and
the `execute` wrapper of each of the ten primitive specializations
(vos_primitives.py).  A member primitive of a composition is represented by
the `PrimitiveResult` its `execute` produces on the shared context (the
context and keyword arguments are unchanged along the member loop, so each
member contributes one fixed result); a specialization's abstract narrowed
operation is an `Except String` outcome (`.error` models a raised exception),
and so is the combined effect of its registered callbacks. -/

inductive PStatus where
  | pending
  | running
  | completed
  | failed
  | cancelled
  deriving DecidableEq, Repr

structure PrimResult (α : Type) where
  status : PStatus
  data : α
  errors : List String := []
  warnings : List String := []
  metrics : List (String × ℚ) := []
  duration_ms : Option ℚ := none
  deriving Repr

/-- Python `dict[k] = v`: overwrite in place if present, else append. -/
def dictInsert {α : Type} (d : List (String × α)) (k : String) (v : α) :
    List (String × α) :=
  if d.any (fun p => p.1 = k) then
    d.map (fun p => if p.1 = k then (k, v) else p)
  else d ++ [(k, v)]

/-- Python `d.update(e)`: insert every entry of `e` into `d` in order. -/
def dictUpdate {α : Type} (d e : List (String × α)) : List (String × α) :=
  e.foldl (fun d p => dictInsert d p.1 p.2) d

/-- Member loop of `ComposedPrimitive.execute` with its four accumulators. -/
def composedExecuteAux {α : Type} (acc_results : List (PrimResult α))
    (acc_metrics : List (String × ℚ)) (acc_errors acc_warnings : List String) :
    List (PrimResult α) → PrimResult (List (PrimResult α))
  | [] =>
    { status := .completed, data := acc_results, errors := acc_errors,
      warnings := acc_warnings, metrics := acc_metrics }
  | r :: rest =>
    let results := acc_results ++ [r]
    let metrics := dictUpdate acc_metrics r.metrics
    let errors := acc_errors ++ r.errors
    let warnings := acc_warnings ++ r.warnings
    if r.status = .failed then
      { status := .failed, data := results, errors := errors,
        warnings := warnings, metrics := metrics }
    else
      composedExecuteAux results metrics errors warnings rest

/-- Embeds `ComposedPrimitive.execute` over the ordered member results. -/
def composedExecute {α : Type} (members : List (PrimResult α)) :
    PrimResult (List (PrimResult α)) :=
  composedExecuteAux [] [] [] [] members

/-- Embeds `DetectionPrimitive.execute`: run `detect`, trigger the
`detection_complete` callbacks, report the elapsed milliseconds; any raised
exception yields a failed result carrying the exception text. -/
def detectionExecute {α : Type} (op : Except String α)
    (cb : α → Except String Unit) (duration_ms : ℚ) : PrimResult (Option α) :=
  match op with
  | .error e => { status := .failed, data := none, errors := [e] }
  | .ok d =>
    match cb d with
    | .error e => { status := .failed, data := none, errors := [e] }
    | .ok _ =>
      { status := .completed, data := some d, duration_ms := some duration_ms,
        metrics := [("detection_latency_ms", duration_ms)] }

/-- Embeds `CorrectionPrimitive.execute`. -/
def correctionExecute {α : Type} (op : Except String α)
    (cb : α → Except String Unit) (duration_ms : ℚ) : PrimResult (Option α) :=
  match op with
  | .error e => { status := .failed, data := none, errors := [e] }
  | .ok d =>
    match cb d with
    | .error e => { status := .failed, data := none, errors := [e] }
    | .ok _ =>
      { status := .completed, data := some d, duration_ms := some duration_ms,
        metrics := [("correction_latency_ms", duration_ms)] }

/-- Embeds `UncertaintyPrimitive.execute`: the metric is the number of
uncertainty dimensions returned by `quantify`. -/
def uncertaintyExecute (op : Except String (List (String × ℚ)))
    (cb : List (String × ℚ) → Except String Unit) :
    PrimResult (Option (List (String × ℚ))) :=
  match op with
  | .error e => { status := .failed, data := none, errors := [e] }
  | .ok d =>
    match cb d with
    | .error e => { status := .failed, data := none, errors := [e] }
    | .ok _ =>
      { status := .completed, data := some d,
        metrics := [("uncertainty_dimensions", (d.length : ℚ))] }

/-- Embeds `CoordinationPrimitive.execute`: the metric is the length of the
`agents` keyword argument. -/
def coordinationExecute {α : Type} (agents : List String)
    (op : Except String α) (cb : α → Except String Unit) :
    PrimResult (Option α) :=
  match op with
  | .error e => { status := .failed, data := none, errors := [e] }
  | .ok d =>
    match cb d with
    | .error e => { status := .failed, data := none, errors := [e] }
    | .ok _ =>
      { status := .completed, data := some d,
        metrics := [("coordinated_agents", (agents.length : ℚ))] }

/-- Embeds `TrustPrimitive.execute`: the data payload and the metric both
carry the computed trust score. -/
def trustExecute (op : Except String ℚ) (cb : ℚ → Except String Unit) :
    PrimResult (Option (List (String × ℚ))) :=
  match op with
  | .error e => { status := .failed, data := none, errors := [e] }
  | .ok score =>
    match cb score with
    | .error e => { status := .failed, data := none, errors := [e] }
    | .ok _ =>
      { status := .completed, data := some [("trust_score", score)],
        metrics := [("trust_score", score)] }

/-- Embeds `MemoryPrimitive.execute`. -/
def memoryExecute {α : Type} (op : Except String α)
    (cb : α → Except String Unit) : PrimResult (Option α) :=
  match op with
  | .error e => { status := .failed, data := none, errors := [e] }
  | .ok d =>
    match cb d with
    | .error e => { status := .failed, data := none, errors := [e] }
    | .ok _ => { status := .completed, data := some d }

/-- Embeds `HandoffPrimitive.execute`. -/
def handoffExecute {α : Type} (op : Except String α)
    (cb : α → Except String Unit) : PrimResult (Option α) :=
  match op with
  | .error e => { status := .failed, data := none, errors := [e] }
  | .ok d =>
    match cb d with
    | .error e => { status := .failed, data := none, errors := [e] }
    | .ok _ => { status := .completed, data := some d }

/-- Embeds `WorkflowPrimitive.execute`. -/
def workflowExecute {α : Type} (op : Except String α)
    (cb : α → Except String Unit) : PrimResult (Option α) :=
  match op with
  | .error e => { status := .failed, data := none, errors := [e] }
  | .ok d =>
    match cb d with
    | .error e => { status := .failed, data := none, errors := [e] }
    | .ok _ => { status := .completed, data := some d }

/-- Embeds `CompliancePrimitive.execute`. -/
def complianceExecute {α : Type} (op : Except String α)
    (cb : α → Except String Unit) : PrimResult (Option α) :=
  match op with
  | .error e => { status := .failed, data := none, errors := [e] }
  | .ok d =>
    match cb d with
    | .error e => { status := .failed, data := none, errors := [e] }
    | .ok _ => { status := .completed, data := some d }

/-- Embeds `BenchmarkPrimitive.execute`. -/
def benchmarkExecute {α : Type} (op : Except String α)
    (cb : α → Except String Unit) : PrimResult (Option α) :=
  match op with
  | .error e => { status := .failed, data := none, errors := [e] }
  | .ok d =>
    match cb d with
    | .error e => { status := .failed, data := none, errors := [e] }
    | .ok _ => { status := .completed, data := some d }

/-! ## Domain router detection
Embeds `DomainSignature`, `DomainMatch` and `DomainRouter.detect_domain`
(domain_router.py).  The function is parametric in the signature table (the
router holds the fixed table built by `_initialize_signatures`, optionally
extended by custom domains); `str(agent_config).lower()` and
`agent_config.get("model_type", "").lower()` are supplied as the already
lowered strings they are in the source, and the external regex engine
(`re.search`) is an oracle parameter. -/

/-- Python substring membership `pat in text` (empty pattern always matches). -/
def containsSubstr (text pat : String) : Bool :=
  pat = "" || (text.splitOn pat).length ≠ 1

structure DomainSignature where
  keywords : List String
  data_patterns : List String
  required_fields : List String
  model_types : List String
  confidence_threshold : ℚ := 7/10
  deriving Repr

/-- Shape of the optional `sample_data` argument: its Python truthiness
(`if sample_data:`), its textual form `str(sample_data)`, and its key list
when it is a dict (`isinstance(sample_data, dict)`). -/
structure SampleData where
  present : Bool
  text : String
  keys : Option (List String)
  deriving Repr

/-- Absent sample data (`sample_data = None`). -/
def SampleData.noneData : SampleData := ⟨false, "", none⟩

structure DomainMatch where
  domain : String
  confidence : ℚ
  matched_keywords : List String
  matched_patterns : List String
  matched_fields : List String
  matched_model_types : List String
  deriving Repr

/-- Embeds the `is_confident` property of `DomainMatch`. -/
def DomainMatch.is_confident (m : DomainMatch) : Bool :=
  decide ((7 : ℚ)/10 ≤ m.confidence)

/-- Per-domain loop body of `detect_domain`: the four weighted signals
accumulated in source order, each behind its non-empty-match guard. -/
def scoreDomain (research : String → String → Bool)
    (cfgText modelType : String) (sample : SampleData)
    (domain : String) (sig : DomainSignature) : DomainMatch :=
  let matchedKw := sig.keywords.filter (fun kw => containsSubstr cfgText kw)
  let matchedMt := if sig.model_types.contains modelType then [modelType] else []
  let matchedPat :=
    if sample.present then sig.data_patterns.filter (fun p => research p sample.text)
    else []
  let matchedFld :=
    match sample.keys with
    | some ks => sig.required_fields.filter (fun f => ks.contains f)
    | none => []
  let confidence : ℚ :=
    (if matchedKw.isEmpty then 0
     else (matchedKw.length : ℚ) / (sig.keywords.length : ℚ) * (4/10)) +
    (if matchedMt.isEmpty then 0 else 3/10) +
    (if matchedPat.isEmpty then 0
     else (matchedPat.length : ℚ) / (sig.data_patterns.length : ℚ) * (2/10)) +
    (if matchedFld.isEmpty then 0
     else (matchedFld.length : ℚ) / (sig.required_fields.length : ℚ) * (1/10))
  ⟨domain, confidence, matchedKw, matchedPat, matchedFld, matchedMt⟩

/-- Stable descending insertion used to model
`matches.sort(key=lambda x: x.confidence, reverse=True)`. -/
def insertDesc (m : DomainMatch) : List DomainMatch → List DomainMatch
  | [] => [m]
  | x :: xs =>
    if x.confidence < m.confidence then m :: x :: xs else x :: insertDesc m xs

def sortByConfidenceDesc (l : List DomainMatch) : List DomainMatch :=
  l.foldr insertDesc []

/-- Embeds `DomainRouter.detect_domain`: score every signature, keep the
domains with positive confidence, and sort by descending confidence. -/
def detectDomain (research : String → String → Bool)
    (sigs : List (String × DomainSignature))
    (cfgText modelType : String) (sample : SampleData) : List DomainMatch :=
  sortByConfidenceDesc
    (sigs.filterMap (fun ds =>
      let m := scoreDomain research cfgText modelType sample ds.1 ds.2
      if 0 < m.confidence then some m else none))

/-- Closed form of the accumulated confidence as a function of the matched and
total counts of the four signals; `scoreDomain` computes exactly this (see the
bridging conjunct of the C4 theorem). -/
def domainConfidence (matchedKw totalKw : ℕ) (modelMatch : Bool)
    (matchedPat totalPat : ℕ) (matchedFld totalFld : ℕ) : ℚ :=
  (if matchedKw = 0 then 0 else (matchedKw : ℚ) / (totalKw : ℚ) * (4/10)) +
  (if modelMatch then 3/10 else 0) +
  (if matchedPat = 0 then 0 else (matchedPat : ℚ) / (totalPat : ℚ) * (2/10)) +
  (if matchedFld = 0 then 0 else (matchedFld : ℚ) / (totalFld : ℚ) * (1/10))

/-! ## In-process memory cache
Embeds `CacheEntry`, `MemoryCache.get/set/delete` and `MemoryCache._evict`
(caching.py).  The backing `OrderedDict` is an insertion-ordered entry list
(head = oldest); `time.time()` readings are passed in explicitly with each
operation. -/

structure MCacheEntry (α : Type) where
  key : String
  value : α
  created_at : ℚ
  ttl : Option ℚ
  access_count : ℕ := 0
  last_accessed : Option ℚ := none
  deriving Repr

/-- Embeds the `is_expired` property of `CacheEntry`. -/
def MCacheEntry.is_expired {α : Type} (e : MCacheEntry α) (now : ℚ) : Bool :=
  match e.ttl with
  | none => false
  | some t => decide (t < now - e.created_at)

/-- Embeds `CacheEntry.touch`. -/
def MCacheEntry.touch {α : Type} (e : MCacheEntry α) (now : ℚ) : MCacheEntry α :=
  { e with access_count := e.access_count + 1, last_accessed := some now }

inductive EvictionPolicy where
  | lru
  | lfu
  | fifo
  deriving DecidableEq, Repr

structure CacheStats where
  hits : ℕ := 0
  misses : ℕ := 0
  evictions : ℕ := 0
  sets : ℕ := 0
  deriving Repr

structure MemoryCache (α : Type) where
  max_size : ℕ
  eviction_policy : EvictionPolicy
  entries : List (MCacheEntry α)
  stats : CacheStats
  deriving Repr

/-- Embeds `MemoryCache.__init__`. -/
def MemoryCache.init (α : Type) (max_size : ℕ) (policy : EvictionPolicy) :
    MemoryCache α :=
  ⟨max_size, policy, [], {}⟩

def cacheKeys {α : Type} (c : MemoryCache α) : List String :=
  c.entries.map (fun e => e.key)

/-- First entry holding the minimal access count, as selected by Python
`min(self._cache.values(), key=lambda e: e.access_count)`. -/
def minAccessEntry {α : Type} :
    MCacheEntry α → List (MCacheEntry α) → MCacheEntry α
  | best, [] => best
  | best, e :: rest =>
    if e.access_count < best.access_count then minAccessEntry e rest
    else minAccessEntry best rest

/-- Embeds `MemoryCache._evict`: nothing on an empty cache; otherwise drop the
head (LRU and FIFO both `popitem(last=False)`) or the first minimal-access
entry (LFU), and count the eviction. -/
def MemoryCache.evict {α : Type} (c : MemoryCache α) : MemoryCache α :=
  match c.entries with
  | [] => c
  | e :: rest =>
    let entries :=
      match c.eviction_policy with
      | .lru => rest
      | .fifo => rest
      | .lfu =>
        let victim := minAccessEntry e rest
        (e :: rest).eraseP (fun x => x.key = victim.key)
    { c with entries := entries,
             stats := { c.stats with evictions := c.stats.evictions + 1 } }

/-- Embeds `MemoryCache.set`: evict when at capacity and the key is new, then
`self._cache[key] = entry` (overwrite in place or append). -/
def MemoryCache.set {α : Type} (c : MemoryCache α) (key : String) (value : α)
    (ttl : Option ℚ) (now : ℚ) : MemoryCache α :=
  let c :=
    if c.max_size ≤ c.entries.length && !(cacheKeys c).contains key then c.evict
    else c
  let entry : MCacheEntry α := { key := key, value := value, created_at := now, ttl := ttl }
  let entries :=
    if (cacheKeys c).contains key then
      c.entries.map (fun e => if e.key = key then entry else e)
    else c.entries ++ [entry]
  { c with entries := entries,
           stats := { c.stats with sets := c.stats.sets + 1 } }

/-- Embeds `MemoryCache.get`: miss on absence, expiry-purge-and-miss on an
expired entry, otherwise touch, count the hit and (LRU) move to the end. -/
def MemoryCache.get {α : Type} (c : MemoryCache α) (key : String) (now : ℚ) :
    Option α × MemoryCache α :=
  match c.entries.find? (fun e => e.key = key) with
  | none =>
    (none, { c with stats := { c.stats with misses := c.stats.misses + 1 } })
  | some e =>
    if e.is_expired now then
      (none, { c with
        entries := c.entries.eraseP (fun x => x.key = key),
        stats := { c.stats with misses := c.stats.misses + 1 } })
    else
      let touched := e.touch now
      let entries := c.entries.map (fun x => if x.key = key then touched else x)
      let entries :=
        if c.eviction_policy = .lru then
          (entries.eraseP (fun x => x.key = key)) ++ [touched]
        else entries
      (some e.value,
       { c with entries := entries,
                stats := { c.stats with hits := c.stats.hits + 1 } })

/-- Embeds `MemoryCache.delete`. -/
def MemoryCache.delete {α : Type} (c : MemoryCache α) (key : String) :
    Bool × MemoryCache α :=
  if (cacheKeys c).contains key then
    (true, { c with entries := c.entries.eraseP (fun x => x.key = key) })
  else (false, c)

/-- One client operation against the cache, timestamped by the caller. -/
inductive CacheOp (α : Type) where
  | get (key : String) (now : ℚ)
  | set (key : String) (value : α) (ttl : Option ℚ) (now : ℚ)
  | del (key : String)

def applyCacheOp {α : Type} (c : MemoryCache α) : CacheOp α → MemoryCache α
  | .get key now => (c.get key now).2
  | .set key value ttl now => c.set key value ttl now
  | .del key => (c.delete key).2

def applyCacheOps {α : Type} (c : MemoryCache α) (ops : List (CacheOp α)) :
    MemoryCache α :=
  ops.foldl applyCacheOp c

/-! ## Validation orchestrator task scheduling
Embeds `ValidationTask`, `ValidationOrchestrator._execute_task` and
`ValidationOrchestrator._execute_tasks` (validation_orchestrator.py).  Tasks
are indexed by position (standing for `task_id`); a task's callable is an
oracle `behavior : task index → attempt number → Bool` where `true` means
that invocation raises (a stage-timeout `SchedulingError` is one such raise).
Within one wave every ready task is executed and then added to
`completed_tasks` — both the inline path and the future-collection path of the
source do exactly that — and a wave only reads and writes the per-task state
of its own ready tasks, so the thread-pool fan-out is modelled by processing
the ready list in order. -/

inductive VStatus where
  | pending
  | running
  | completed
  | failed
  | cancelled
  | skipped
  deriving DecidableEq, Repr

structure VTask where
  deps : List ℕ
  status : VStatus := .pending
  retry_count : ℕ := 0
  max_retries : ℕ := 3
  has_func : Bool := true
  exec_count : ℕ := 0
  deriving DecidableEq, Repr

def dummyVTask : VTask := { deps := [] }

/-- Embeds `ValidationOrchestrator._execute_task`: run the callable (counting
the invocation), mark completed on success or skipped without a callable; on a
raise mark failed and, below the retry cap, increment the retry counter and
reset to pending. -/
def executeTask (behavior : ℕ → ℕ → Bool) (i : ℕ) (t : VTask) : VTask :=
  if t.has_func then
    let raises := behavior i t.exec_count
    let t := { t with exec_count := t.exec_count + 1 }
    if raises then
      let t := { t with status := VStatus.failed }
      if t.retry_count < t.max_retries then
        { t with retry_count := t.retry_count + 1, status := VStatus.pending }
      else t
    else { t with status := VStatus.completed }
  else { t with status := VStatus.skipped }

/-- Ready scan of `_execute_tasks`: not yet completed, still pending, and all
dependencies completed. -/
def readyTasks (ts : List VTask) (completed : Finset ℕ) : List ℕ :=
  (List.range ts.length).filter (fun i =>
    !decide (i ∈ completed) &&
    (ts.getD i dummyVTask).status = VStatus.pending &&
    (ts.getD i dummyVTask).deps.all (fun d => decide (d ∈ completed)))

/-- One wave of `_execute_tasks`: every ready task is executed and added to
the completed set (the source adds the task id after `_execute_task` returns,
in the inline branch and in the future-collection loop alike, regardless of
the resulting task status). -/
def runWave (behavior : ℕ → ℕ → Bool) :
    List ℕ → List VTask × Finset ℕ → List VTask × Finset ℕ
  | [], st => st
  | i :: rest, (ts, completed) =>
    runWave behavior rest
      (ts.set i (executeTask behavior i (ts.getD i dummyVTask)), insert i completed)

/-- Wave loop of `_execute_tasks`: while some task is uncompleted, compute the
ready set, raise `DependencyError` if it is empty, otherwise run the wave. -/
def executeTasksAux (behavior : ℕ → ℕ → Bool) (ts : List VTask)
    (completed : Finset ℕ) : Except String (List VTask) :=
  if h : completed.card < ts.length then
    match hr : readyTasks ts completed with
    | [] => .error "Circular dependency detected in validation pipeline"
    | i :: rest =>
      have hi : i ∉ completed := by
        have : i ∈ readyTasks ts completed := by rw [hr]; exact List.mem_cons_self i rest
        simp only [readyTasks, List.mem_filter, Bool.and_eq_true, Bool.not_eq_eq_eq_not,
          Bool.not_true, decide_eq_false_iff_not] at this
        exact this.2.1.1
      executeTasksAux behavior (runWave behavior (i :: rest) (ts, completed)).1
        (runWave behavior (i :: rest) (ts, completed)).2
  else .ok ts
termination_by ts.length - completed.card
decreasing_by
  have hlen : ∀ (ready : List ℕ) (ts : List VTask) (completed : Finset ℕ),
      (runWave behavior ready (ts, completed)).1.length = ts.length := by
    intro ready
    induction ready with
    | nil => intro ts completed; rfl
    | cons j rest ih =>
      intro ts completed
      simp only [runWave]
      rw [ih]
      exact List.length_set ..
  have hsub : ∀ (ready : List ℕ) (ts : List VTask) (completed : Finset ℕ),
      completed ⊆ (runWave behavior ready (ts, completed)).2 := by
    intro ready
    induction ready with
    | nil => intro ts completed x hx; exact hx
    | cons j rest ih =>
      intro ts completed x hx
      exact ih _ _ (Finset.mem_insert_of_mem hx)
  have hcard : completed.card < (runWave behavior (i :: rest) (ts, completed)).2.card := by
    have hsub2 : insert i completed ⊆ (runWave behavior (i :: rest) (ts, completed)).2 := by
      simpa [runWave] using hsub rest
        (ts.set i (executeTask behavior i (ts.getD i dummyVTask))) (insert i completed)
    calc completed.card < (insert i completed).card := by
          rw [Finset.card_insert_of_not_mem hi]; omega
      _ ≤ (runWave behavior (i :: rest) (ts, completed)).2.card :=
          Finset.card_le_card hsub2
  have hlen2 := hlen (i :: rest) ts completed
  omega

/-- Embeds `ValidationOrchestrator._execute_tasks` from a fresh pipeline run
(no task completed yet). -/
def executeTasks (behavior : ℕ → ℕ → Bool) (ts : List VTask) :
    Except String (List VTask) :=
  executeTasksAux behavior ts ∅

/-! ## VOS orchestrator adaptive execution
Embeds `VOSOrchestrator._execute_adaptive` (vos_orchestrator.py).  A
primitive's `execute` outcome is an oracle
`behavior : primitive name → attempt number → PStatus`; per-name attempt
counters model successive calls.  Result bookkeeping uses the Python-dict
insertion `dictInsert`; the retry loop (`retry_policy`) re-executes a failed
primitive up to `max_retries` times, keeping the last stored result. -/

structure VosPlan where
  primitives : List String
  dependencies : List (String × List String)
  retry_enabled : Bool := false
  max_retries : ℕ := 3
  deriving Repr

/-- Python `plan.dependencies.get(prim.name, [])`. -/
def depsOf (plan : VosPlan) (name : String) : List String :=
  ((plan.dependencies.find? (fun p => p.1 = name)).map Prod.snd).getD []

structure VosState where
  executed : Finset String
  pending : Finset String
  results : List (String × PStatus)
  calls : String → ℕ

/-- One `execute` call of a primitive: consult the oracle at the current
attempt number and bump the per-name counter. -/
def vosCall (behavior : String → ℕ → PStatus) (calls : String → ℕ)
    (name : String) : PStatus × (String → ℕ) :=
  (behavior name (calls name),
   fun n => if n = name then calls n + 1 else calls n)

/-- Retry loop of `_execute_adaptive`: up to `k` further attempts, stopping at
(and storing) the first completed result. -/
def vosRetryLoop (behavior : String → ℕ → PStatus) (name : String) :
    ℕ → List (String × PStatus) → (String → ℕ) →
    List (String × PStatus) × (String → ℕ)
  | 0, results, calls => (results, calls)
  | k + 1, results, calls =>
    let (st, calls) := vosCall behavior calls name
    if st = PStatus.completed then (dictInsert results name st, calls)
    else vosRetryLoop behavior name k results calls

/-- Wave body of `_execute_adaptive`: execute each ready primitive, record its
result, move it from pending to executed, and retry on failure when the retry
policy is enabled. -/
def vosWave (behavior : String → ℕ → PStatus) (plan : VosPlan) :
    List String → VosState → VosState
  | [], st => st
  | name :: rest, st =>
    let (r, calls) := vosCall behavior st.calls name
    let st : VosState :=
      { executed := insert name st.executed
        pending := st.pending.erase name
        results := dictInsert st.results name r
        calls := calls }
    let st : VosState :=
      if r = PStatus.failed && plan.retry_enabled then
        let (results, calls) := vosRetryLoop behavior name plan.max_retries st.results st.calls
        { st with results := results, calls := calls }
      else st
    vosWave behavior plan rest st

/-- Ready scan of `_execute_adaptive`: pending primitives whose declared
dependencies have all been executed, in plan order. -/
def vosReady (plan : VosPlan) (st : VosState) : List String :=
  plan.primitives.filter (fun p =>
    decide (p ∈ st.pending) && (depsOf plan p).all (fun d => decide (d ∈ st.executed)))

/-- Wave loop of `_execute_adaptive`: while primitives are pending, raise the
circular-dependency `ValidationError` if none is ready, else run the wave. -/
def executeAdaptiveAux (behavior : String → ℕ → PStatus) (plan : VosPlan) :
    VosState → Except String (List (String × PStatus))
  | st =>
    if h : st.pending.Nonempty then
      match hr : vosReady plan st with
      | [] => .error "Circular dependency detected in orchestration plan"
      | n :: rest =>
        have hn : n ∈ st.pending := by
          have : n ∈ vosReady plan st := by rw [hr]; exact List.mem_cons_self n rest
          simp only [vosReady, List.mem_filter, Bool.and_eq_true, decide_eq_true_eq] at this
          exact this.2.1
        executeAdaptiveAux behavior plan (vosWave behavior plan (n :: rest) st)
    else .ok st.results
termination_by st => st.pending.card
decreasing_by
  have hpsub : ∀ (ready : List String) (st : VosState),
      (vosWave behavior plan ready st).pending ⊆ st.pending := by
    intro ready
    induction ready with
    | nil => intro st x hx; exact hx
    | cons m rest ih =>
      intro st x hx
      simp only [vosWave] at hx
      split at hx
      · exact Finset.erase_subset _ _ (ih _ hx)
      · exact Finset.erase_subset _ _ (ih _ hx)
  have hnot : n ∉ (vosWave behavior plan (n :: rest) st).pending := by
    intro hmem
    simp only [vosWave] at hmem
    split at hmem
    · exact (Finset.not_mem_erase n _) (hpsub _ _ hmem)
    · exact (Finset.not_mem_erase n _) (hpsub _ _ hmem)
  exact Finset.card_lt_card
    ⟨hpsub (n :: rest) st, fun hcontra => hnot (hcontra hn)⟩

/-- Embeds `VOSOrchestrator._execute_adaptive` from its initial state:
`executed = set()`, `pending = {p.name for p in plan.primitives}`. -/
def executeAdaptive (behavior : String → ℕ → PStatus) (plan : VosPlan) :
    Except String (List (String × PStatus)) :=
  executeAdaptiveAux behavior plan
    { executed := ∅
      pending := plan.primitives.toFinset
      results := []
      calls := fun _ => 0 }

/-! # Theorems -/

/-! ## C9: numeric accuracy comparison -/

/-- C9: the quality validator's numeric accuracy comparison scores
`1 - min(1, |out - exp| / |exp|)` for nonzero expected values, `1.0` when both
values are zero, `0.0` when only the expected value is zero; the score always
lies in `[0, 1]` and equals `1.0` whenever output equals expected. -/
theorem C9_accuracy_numeric_formula :
    (∀ o e : ℚ, e ≠ 0 → calculateAccuracyNum o e = 1 - min 1 (|o - e| / |e|)) ∧
    calculateAccuracyNum 0 0 = 1 ∧
    (∀ o : ℚ, o ≠ 0 → calculateAccuracyNum o 0 = 0) ∧
    (∀ o e : ℚ, 0 ≤ calculateAccuracyNum o e ∧ calculateAccuracyNum o e ≤ 1) ∧
    (∀ o : ℚ, calculateAccuracyNum o o = 1) := by
  have hmem : ∀ o e : ℚ, 0 ≤ min 1 (|o - e| / |e|) ∧ min 1 (|o - e| / |e|) ≤ 1 := by
    intro o e
    constructor
    · exact le_min (by norm_num) (div_nonneg (abs_nonneg _) (abs_nonneg _))
    · exact min_le_left _ _
  refine ⟨?_, by norm_num [calculateAccuracyNum], ?_, ?_, ?_⟩
  · intro o e he
    by_cases h : o = e
    · subst h
      simp [calculateAccuracyNum]
    · simp [calculateAccuracyNum, h, he]
  · intro o ho
    simp [calculateAccuracyNum, ho]
  · intro o e
    by_cases h : o = e
    · subst h; simp [calculateAccuracyNum]
    · by_cases he : e = 0
      · subst he
        simp only [calculateAccuracyNum, h, if_false, if_pos rfl]
        rcases eq_or_ne o 0 with h0 | h0 <;> simp [h0]
      · have := hmem o e
        simp only [calculateAccuracyNum, h, if_false, he]
        constructor <;> [linarith [this.2]; linarith [this.1]]
  · intro o
    simp [calculateAccuracyNum]

/-- C9 witness: the conditional conjuncts instantiated at concrete inputs. -/
theorem C9_accuracy_numeric_formula_witness :
    calculateAccuracyNum 3 2 = 1 - min 1 (|(3 : ℚ) - 2| / |(2 : ℚ)|) ∧
    calculateAccuracyNum 5 0 = 0 :=
  ⟨C9_accuracy_numeric_formula.1 3 2 (by norm_num),
   C9_accuracy_numeric_formula.2.2.1 5 (by norm_num)⟩

/-! ## C1: badge assignment grants at most one general badge -/

theorem generalBadgeLoop_eq_take_one (s : ℚ) (m : List String) (n : ℕ)
    (d : List String) (order : List BadgeType) :
    generalBadgeLoop s m n d order =
      ((order.filter (meetsBadgeRequirements s m n d)).take 1).map
        (fun t => ⟨t, none, s⟩) := by
  induction order with
  | nil => rfl
  | cons t rest ih =>
    by_cases h : meetsBadgeRequirements s m n d t
    · simp [generalBadgeLoop, h]
    · simp [generalBadgeLoop, h, ih]

theorem assignBadges_filter_general (s : ℚ) (m : List String) (n : ℕ)
    (d : List String) (ds : List (String × ℚ)) :
    (assignBadges s m n d ds).filter (fun b => b.isGeneral) =
      generalBadgeLoop s m n d [.platinum, .gold, .silver, .bronze] := by
  unfold assignBadges
  rw [List.filter_append]
  have h1 : (generalBadgeLoop s m n d [.platinum, .gold, .silver, .bronze]).filter
      (fun b => b.isGeneral) =
      generalBadgeLoop s m n d [.platinum, .gold, .silver, .bronze] := by
    rw [generalBadgeLoop_eq_take_one]
    apply List.filter_eq_self.mpr
    intro b hb
    rcases List.mem_map.mp hb with ⟨t, ht, rfl⟩
    have : t ∈ [BadgeType.platinum, .gold, .silver, .bronze] :=
      (List.mem_filter.mp (List.mem_of_mem_take ht)).1
    fin_cases this <;> rfl
  have h2 : (ds.filterMap (fun p =>
      if expertMinDomainScore ≤ p.2 then
        some (⟨.domain_expert, some p.1, p.2⟩ : TrustBadge)
      else none)).filter (fun b => b.isGeneral) = [] := by
    rw [List.filter_eq_nil_iff]
    intro b hb
    rcases List.mem_filterMap.mp hb with ⟨p, _, hp⟩
    by_cases hc : expertMinDomainScore ≤ p.2
    · simp only [hc, if_true, Option.some_inj] at hp
      subst hp
      simp [TrustBadge.isGeneral]
    · simp [hc] at hp
  rw [h1, h2, List.append_nil]

/-- C1: badge assignment grants at most one general badge: the candidates are
scanned in the descending order Platinum/Gold/Silver/Bronze and the general
badges granted are exactly the first candidate all of whose thresholds
(minimum score, domain count, test-case count, required metrics) are met; in
particular score 72 with 2 domains, 60 test cases and metrics
accuracy/consistency/reliability yields exactly the Silver general badge. -/
theorem C1_badge_assignment_single_general :
    (∀ (s : ℚ) (m : List String) (n : ℕ) (d : List String) (ds : List (String × ℚ)),
      ((assignBadges s m n d ds).filter (fun b => b.isGeneral)).length ≤ 1) ∧
    (∀ (s : ℚ) (m : List String) (n : ℕ) (d : List String) (ds : List (String × ℚ)),
      ((assignBadges s m n d ds).filter (fun b => b.isGeneral)).map
          (fun b => b.badge_type) =
        ([BadgeType.platinum, .gold, .silver, .bronze].filter
          (meetsBadgeRequirements s m n d)).take 1) ∧
    (assignBadges 72 ["accuracy", "consistency", "reliability"] 60
        ["claims", "fraud"] []).filter (fun b => b.isGeneral) =
      [⟨BadgeType.silver, none, 72⟩] := by
  refine ⟨?_, ?_, ?_⟩
  · intro s m n d ds
    rw [assignBadges_filter_general, generalBadgeLoop_eq_take_one]
    calc (((([BadgeType.platinum, .gold, .silver, .bronze].filter
          (meetsBadgeRequirements s m n d)).take 1)).map
            (fun t => (⟨t, none, s⟩ : TrustBadge))).length
        = (([BadgeType.platinum, .gold, .silver, .bronze].filter
          (meetsBadgeRequirements s m n d)).take 1).length := List.length_map ..
      _ ≤ 1 := List.length_take_le ..
  · intro s m n d ds
    rw [assignBadges_filter_general, generalBadgeLoop_eq_take_one]
    rw [List.map_map]
    have hid : ((fun (b : TrustBadge) => b.badge_type) ∘
        fun t => (⟨t, none, s⟩ : TrustBadge)) = id := rfl
    rw [hid, List.map_id]
  · decide

/-! ## C3: configuration validation raises exactly on invariant violations -/

theorem platformValidate_ok_iff (c : PlatformConfig) :
    c.validate = .ok () ↔
      (c.enabled = true →
        pyStrTruthy c.api_key = true ∧ pyStrTruthy c.base_url = true) := by
  unfold PlatformConfig.validate
  cases he : c.enabled <;> cases hk : pyStrTruthy c.api_key <;>
    cases hu : pyStrTruthy c.base_url <;> simp

theorem validatePlatforms_ok_iff (p : List (String × PlatformConfig)) :
    validatePlatforms p = .ok () ↔ ∀ x ∈ p, x.2.validate = .ok () := by
  induction p with
  | nil => simp [validatePlatforms]
  | cons hd tl ih =>
    cases hval : hd.2.validate with
    | error e => simp [validatePlatforms, hval]
    | ok u => cases u; simp [validatePlatforms, hval, ih]

theorem validateBadgeThresholds_ok_iff (th : List (String × ℚ)) :
    validateBadgeThresholds th = .ok () ↔ ∀ x ∈ th, 0 ≤ x.2 ∧ x.2 ≤ 1 := by
  induction th with
  | nil => simp [validateBadgeThresholds]
  | cons hd tl ih =>
    by_cases hr : 0 ≤ hd.2 ∧ hd.2 ≤ 1
    · simp [validateBadgeThresholds, hr, ih]
    · simp [validateBadgeThresholds, hr]

/-- C3: configuration validation succeeds exactly when every enabled platform
has an API key and base URL, the trust-scoring weights sum to 1.0 within
0.001, and every badge threshold lies in `[0, 1]`; weights summing to 0.99
are rejected with the weight-sum error while the shipped default weights (and
badge thresholds) validate cleanly. -/
theorem C3_config_validation_iff :
    (∀ (p : List (String × PlatformConfig)) (w th : List (String × ℚ)),
      validateConfig p w th = .ok () ↔
        ((∀ x ∈ p, x.2.enabled = true →
            pyStrTruthy x.2.api_key = true ∧ pyStrTruthy x.2.base_url = true) ∧
         |(w.map Prod.snd).sum - 1| ≤ 1/1000 ∧
         ∀ x ∈ th, 0 ≤ x.2 ∧ x.2 ≤ 1)) ∧
    validateConfig []
        [("quality", 25/100), ("bias", 20/100), ("security", 20/100),
         ("compliance", 20/100), ("fairness", 14/100)] defaultBadgeThresholds =
      .error "Trust scoring weights must sum to 1.0" ∧
    validateConfig [] defaultTrustWeights defaultBadgeThresholds = .ok () := by
  refine ⟨?_,
    by norm_num [validateConfig, validatePlatforms, defaultBadgeThresholds,
      validateBadgeThresholds, abs],
    by norm_num [validateConfig, validatePlatforms, defaultTrustWeights,
      defaultBadgeThresholds, validateBadgeThresholds, abs]⟩
  intro p w th
  unfold validateConfig
  cases hp : validatePlatforms p with
  | error e =>
    have hbad : ¬ ∀ x ∈ p, x.2.validate = .ok () := by
      rw [← validatePlatforms_ok_iff, hp]; simp
    constructor
    · intro hcontra; cases hcontra
    · rintro ⟨h1, -, -⟩
      exact absurd (fun x hx => (platformValidate_ok_iff x.2).mpr (h1 x hx)) hbad
  | ok u =>
    cases u
    have hall : ∀ x ∈ p, x.2.enabled = true →
        pyStrTruthy x.2.api_key = true ∧ pyStrTruthy x.2.base_url = true :=
      fun x hx => (platformValidate_ok_iff x.2).mp
        ((validatePlatforms_ok_iff p).mp hp x hx)
    by_cases hw : |(w.map Prod.snd).sum - 1| > 1/1000
    · rw [if_pos hw]
      constructor
      · intro hcontra; cases hcontra
      · rintro ⟨-, h2, -⟩; linarith
    · rw [if_neg hw]
      have hw2 : |(w.map Prod.snd).sum - 1| ≤ 1/1000 := not_lt.mp hw
      constructor
      · intro hok
        exact ⟨hall, hw2, (validateBadgeThresholds_ok_iff th).mp hok⟩
      · rintro ⟨-, -, h3⟩
        exact (validateBadgeThresholds_ok_iff th).mpr h3

/-- C3 witness: a configuration with one disabled platform and the shipped
weights and thresholds satisfies every invariant, hence validates. -/
theorem C3_config_validation_iff_witness :
    validateConfig [("inferloop", { enabled := false })] defaultTrustWeights
      defaultBadgeThresholds = .ok () := by
  apply (C3_config_validation_iff.1 _ _ _).mpr
  refine ⟨?_, ?_, ?_⟩
  · intro x hx hen
    simp only [List.mem_singleton] at hx
    subst hx
    cases hen
  · norm_num [defaultTrustWeights, abs]
  · intro x hx
    simp only [defaultBadgeThresholds, List.mem_cons, List.not_mem_nil,
      or_false] at hx
    rcases hx with rfl | rfl | rfl | rfl <;> norm_num

/-! ## C8: token-bucket rate limiter -/

/-- C8: on each consume the bucket refills by elapsed time times the refill
rate, capped at capacity; a consume of `n` tokens succeeds exactly when `n`
tokens are available after the refill (subtracting them), and otherwise fails
with `retry_after = (needed - available) / refill_rate`, a positive value for
a positive refill rate; the limiter built from `max_requests=5, time_window=1`
admits five immediate unit consumes, fails the sixth with a positive
retry-after, and admits again once the refill interval has elapsed. -/
theorem C8_token_bucket_semantics :
    (∀ (b : TokenBucket) (now : ℚ),
      (b.refill now).tokens =
        min b.capacity (b.tokens + (now - b.last_refill) * b.refill_rate) ∧
      (b.refill now).capacity = b.capacity ∧
      (b.refill now).refill_rate = b.refill_rate ∧
      (b.refill now).last_refill = now) ∧
    (∀ (b : TokenBucket) (n : ℕ) (now : ℚ),
      ((b.consume n now).1.1 = true ↔ (n : ℚ) ≤ (b.refill now).tokens) ∧
      ((n : ℚ) ≤ (b.refill now).tokens →
        (b.consume n now).2 =
          { b.refill now with tokens := (b.refill now).tokens - n } ∧
        (b.consume n now).1.2 = none) ∧
      ((b.refill now).tokens < (n : ℚ) →
        (b.consume n now).2 = b.refill now ∧
        (b.consume n now).1.2 =
          some (((n : ℚ) - (b.refill now).tokens) / b.refill_rate))) ∧
    (∀ (b : TokenBucket) (n : ℕ) (now : ℚ),
      0 < b.refill_rate → (b.refill now).tokens < (n : ℚ) →
      ∃ ra, (b.consume n now).1.2 = some ra ∧ 0 < ra) ∧
    ((consumeSeq (createTokenBucketLimiter 5 1 none 0) [0, 0, 0, 0, 0, 0, 1]).1 =
      [(true, none), (true, none), (true, none), (true, none), (true, none),
       (false, some (1/5)), (true, none)] ∧
     ∃ ra, ((consumeSeq (createTokenBucketLimiter 5 1 none 0)
        [0, 0, 0, 0, 0, 0, 1]).1.getD 5 (true, none)) = (false, some ra) ∧
        0 < ra) := by
  have hmin : ∀ a b : ℚ, pymin a b = min a b := by
    intro a b
    unfold pymin
    split
    · exact (min_eq_left (by assumption)).symm
    · exact (min_eq_right (le_of_not_le (by assumption))).symm
  refine ⟨?_, ?_, ?_, ?_, ?_⟩
  · intro b now
    exact ⟨hmin .., rfl, rfl, rfl⟩
  · intro b n now
    refine ⟨?_, ?_, ?_⟩
    · by_cases h : (n : ℚ) ≤ (b.refill now).tokens <;>
        simp [TokenBucket.consume, h]
    · intro h
      simp [TokenBucket.consume, h]
    · intro hlt
      have h : ¬ (n : ℚ) ≤ (b.refill now).tokens := not_le.mpr hlt
      simp only [TokenBucket.refill] at h
      simp [TokenBucket.consume, TokenBucket.refill, h]
  · intro b n now hr hlt
    refine ⟨((n : ℚ) - (b.refill now).tokens) / b.refill_rate, ?_, ?_⟩
    · have h : ¬ (n : ℚ) ≤ (b.refill now).tokens := not_le.mpr hlt
      simp only [TokenBucket.refill] at h
      simp [TokenBucket.consume, TokenBucket.refill, h]
    · exact div_pos (by linarith) hr
  · norm_num [consumeSeq, TokenBucket.consume, TokenBucket.refill,
      createTokenBucketLimiter, TokenBucket.init, pymin]
  · refine ⟨1/5, ?_, by norm_num⟩
    norm_num [consumeSeq, TokenBucket.consume, TokenBucket.refill,
      createTokenBucketLimiter, TokenBucket.init, pymin]

/-- C8 witness: the fresh five-token limiter admits a unit consume at time
zero, and refuses six tokens with a positive retry-after. -/
theorem C8_token_bucket_semantics_witness :
    ((createTokenBucketLimiter 5 1 none 0).consume 1 0).1.2 = none ∧
    (∃ ra, ((createTokenBucketLimiter 5 1 none 0).consume 6 0).1.2 = some ra ∧
      0 < ra) := by
  constructor
  · exact ((C8_token_bucket_semantics.2.1 (createTokenBucketLimiter 5 1 none 0)
      1 0).2.1 (by norm_num [createTokenBucketLimiter, TokenBucket.init,
        TokenBucket.refill, pymin])).2
  · exact C8_token_bucket_semantics.2.2.1 (createTokenBucketLimiter 5 1 none 0)
      6 0 (by norm_num [createTokenBucketLimiter, TokenBucket.init])
      (by norm_num [createTokenBucketLimiter, TokenBucket.init,
        TokenBucket.refill, pymin])

/-! ## C7: specialization exceptions become failed results -/

/-- C7: in every one of the ten primitive specializations, an exception raised
by the narrowed domain operation makes `execute` return a failed
`PrimitiveResult` whose error list carries the exception text (and, the
embeddings being total functions into `PrimResult`, the exception is never
propagated to the caller). -/
theorem C7_specialization_errors_reported_as_data :
    (∀ (α : Type) (msg : String) (cb : α → Except String Unit) (d : ℚ),
      detectionExecute (Except.error msg) cb d =
        { status := .failed, data := none, errors := [msg] }) ∧
    (∀ (α : Type) (msg : String) (cb : α → Except String Unit) (d : ℚ),
      correctionExecute (Except.error msg) cb d =
        { status := .failed, data := none, errors := [msg] }) ∧
    (∀ (msg : String) (cb : List (String × ℚ) → Except String Unit),
      uncertaintyExecute (Except.error msg) cb =
        { status := .failed, data := none, errors := [msg] }) ∧
    (∀ (α : Type) (agents : List String) (msg : String)
        (cb : α → Except String Unit),
      coordinationExecute agents (Except.error msg) cb =
        { status := .failed, data := none, errors := [msg] }) ∧
    (∀ (msg : String) (cb : ℚ → Except String Unit),
      trustExecute (Except.error msg) cb =
        { status := .failed, data := none, errors := [msg] }) ∧
    (∀ (α : Type) (msg : String) (cb : α → Except String Unit),
      memoryExecute (Except.error msg) cb =
        { status := .failed, data := none, errors := [msg] }) ∧
    (∀ (α : Type) (msg : String) (cb : α → Except String Unit),
      handoffExecute (Except.error msg) cb =
        { status := .failed, data := none, errors := [msg] }) ∧
    (∀ (α : Type) (msg : String) (cb : α → Except String Unit),
      workflowExecute (Except.error msg) cb =
        { status := .failed, data := none, errors := [msg] }) ∧
    (∀ (α : Type) (msg : String) (cb : α → Except String Unit),
      complianceExecute (Except.error msg) cb =
        { status := .failed, data := none, errors := [msg] }) ∧
    (∀ (α : Type) (msg : String) (cb : α → Except String Unit),
      benchmarkExecute (Except.error msg) cb =
        { status := .failed, data := none, errors := [msg] }) := by
  exact ⟨fun _ _ _ _ => rfl, fun _ _ _ _ => rfl, fun _ _ => rfl,
    fun _ _ _ _ => rfl, fun _ _ => rfl, fun _ _ _ => rfl, fun _ _ _ => rfl,
    fun _ _ _ => rfl, fun _ _ _ => rfl, fun _ _ _ => rfl⟩

/-! ## C6: composed primitive semantics -/

theorem composedExecuteAux_no_fail {α : Type} (rs : List (PrimResult α))
    (accR : List (PrimResult α)) (accM : List (String × ℚ))
    (accE accW : List String) (h : ∀ r ∈ rs, r.status ≠ .failed) :
    composedExecuteAux accR accM accE accW rs =
      { status := .completed, data := accR ++ rs,
        errors := accE ++ (rs.map (fun r => r.errors)).flatten,
        warnings := accW ++ (rs.map (fun r => r.warnings)).flatten,
        metrics := rs.foldl (fun d r => dictUpdate d r.metrics) accM } := by
  induction rs generalizing accR accM accE accW with
  | nil => simp [composedExecuteAux]
  | cons r rest ih =>
    have hr : r.status ≠ .failed := h r (List.mem_cons_self r rest)
    simp only [composedExecuteAux, if_neg hr]
    rw [ih _ _ _ _ (fun x hx => h x (List.mem_cons_of_mem r hx))]
    simp

theorem composedExecuteAux_first_fail {α : Type} (pre : List (PrimResult α))
    (r : PrimResult α) (post : List (PrimResult α))
    (accR : List (PrimResult α)) (accM : List (String × ℚ))
    (accE accW : List String)
    (hpre : ∀ x ∈ pre, x.status ≠ .failed) (hr : r.status = .failed) :
    composedExecuteAux accR accM accE accW (pre ++ r :: post) =
      { status := .failed, data := accR ++ pre ++ [r],
        errors := accE ++ ((pre ++ [r]).map (fun x => x.errors)).flatten,
        warnings := accW ++ ((pre ++ [r]).map (fun x => x.warnings)).flatten,
        metrics := (pre ++ [r]).foldl (fun d x => dictUpdate d x.metrics) accM } := by
  induction pre generalizing accR accM accE accW with
  | nil =>
    simp only [List.nil_append, composedExecuteAux, if_pos hr]
    simp
  | cons p rest ih =>
    have hp : p.status ≠ .failed := hpre p (List.mem_cons_self p rest)
    have step : composedExecuteAux accR accM accE accW ((p :: rest) ++ r :: post) =
        composedExecuteAux (accR ++ [p]) (dictUpdate accM p.metrics)
          (accE ++ p.errors) (accW ++ p.warnings) (rest ++ r :: post) := by
      simp only [List.cons_append, composedExecuteAux, if_neg hp]
      rfl
    rw [step, ih _ _ _ _ (fun x hx => hpre x (List.mem_cons_of_mem p hx))]
    simp

/-- C6: executing a composed primitive runs the members in order accumulating
metrics, errors and warnings; it stops at the first failed member, returning a
failed result carrying the partial member-result list, and returns a completed
result carrying all member results when no member fails. -/
theorem C6_composed_primitive_semantics :
    (∀ (α : Type) (rs : List (PrimResult α)), (∀ r ∈ rs, r.status ≠ .failed) →
      composedExecute rs =
        { status := .completed, data := rs,
          errors := (rs.map (fun r => r.errors)).flatten,
          warnings := (rs.map (fun r => r.warnings)).flatten,
          metrics := rs.foldl (fun d r => dictUpdate d r.metrics) [] }) ∧
    (∀ (α : Type) (pre : List (PrimResult α)) (r : PrimResult α)
        (post : List (PrimResult α)),
      (∀ x ∈ pre, x.status ≠ .failed) → r.status = .failed →
      composedExecute (pre ++ r :: post) =
        { status := .failed, data := pre ++ [r],
          errors := ((pre ++ [r]).map (fun x => x.errors)).flatten,
          warnings := ((pre ++ [r]).map (fun x => x.warnings)).flatten,
          metrics := (pre ++ [r]).foldl (fun d x => dictUpdate d x.metrics) [] }) := by
  constructor
  · intro α rs h
    unfold composedExecute
    rw [composedExecuteAux_no_fail rs [] [] [] [] h]
    simp
  · intro α pre r post hpre hr
    unfold composedExecute
    rw [composedExecuteAux_first_fail pre r post [] [] [] [] hpre hr]
    simp

/-! ## C4: domain detection confidence -/

theorem mem_insertDesc {x m : DomainMatch} {l : List DomainMatch} :
    x ∈ insertDesc m l ↔ x = m ∨ x ∈ l := by
  induction l with
  | nil => simp [insertDesc]
  | cons y ys ih =>
    by_cases h : y.confidence < m.confidence
    · simp [insertDesc, h]
    · simp only [insertDesc, if_neg h, List.mem_cons, ih]
      tauto

theorem mem_sortByConfidenceDesc {x : DomainMatch} {l : List DomainMatch} :
    x ∈ sortByConfidenceDesc l ↔ x ∈ l := by
  induction l with
  | nil => simp [sortByConfidenceDesc]
  | cons y ys ih =>
    have hstep : sortByConfidenceDesc (y :: ys) = insertDesc y (sortByConfidenceDesc ys) := rfl
    rw [hstep, mem_insertDesc, ih, List.mem_cons]

theorem pairwise_insertDesc (m : DomainMatch) (l : List DomainMatch)
    (h : l.Pairwise (fun a b => b.confidence ≤ a.confidence)) :
    (insertDesc m l).Pairwise (fun a b => b.confidence ≤ a.confidence) := by
  induction l with
  | nil => simp [insertDesc]
  | cons y ys ih =>
    rcases List.pairwise_cons.mp h with ⟨hy, hys⟩
    by_cases hlt : y.confidence < m.confidence
    · rw [insertDesc, if_pos hlt]
      refine List.pairwise_cons.mpr ⟨?_, h⟩
      intro z hz
      rcases List.mem_cons.mp hz with rfl | hz2
      · exact le_of_lt hlt
      · exact le_trans (hy z hz2) (le_of_lt hlt)
    · rw [insertDesc, if_neg hlt]
      refine List.pairwise_cons.mpr ⟨?_, ih hys⟩
      intro z hz
      rcases mem_insertDesc.mp hz with rfl | hz2
      · exact not_lt.mp hlt
      · exact hy z hz2

theorem pairwise_sortByConfidenceDesc (l : List DomainMatch) :
    (sortByConfidenceDesc l).Pairwise (fun a b => b.confidence ≤ a.confidence) := by
  induction l with
  | nil => simp [sortByConfidenceDesc]
  | cons y ys ih => exact pairwise_insertDesc y _ ih

/-- Pattern-match count of `scoreDomain` on a sample. -/
def patMatches (research : String → String → Bool) (sample : SampleData)
    (sig : DomainSignature) : List String :=
  if sample.present then sig.data_patterns.filter (fun p => research p sample.text)
  else []

/-- Field-match count of `scoreDomain` on a sample. -/
def fldMatches (sample : SampleData) (sig : DomainSignature) : List String :=
  match sample.keys with
  | some ks => sig.required_fields.filter (fun f => ks.contains f)
  | none => []

theorem guardPiece_eq (l : List String) (t : ℕ) (w : ℚ) :
    (if l.isEmpty then (0 : ℚ) else (l.length : ℚ) / (t : ℚ) * w) =
    (if l.length = 0 then (0 : ℚ) else (l.length : ℚ) / (t : ℚ) * w) := by
  cases l <;> simp

theorem mtPiece_eq (b : Bool) (s : String) :
    (if (if b then [s] else []).isEmpty then (0 : ℚ) else 3/10) =
    (if b then (3 : ℚ)/10 else 0) := by
  cases b <;> simp

theorem scoreDomain_confidence_eq (research : String → String → Bool)
    (cfgText modelType : String) (sample : SampleData) (d : String)
    (sig : DomainSignature) :
    (scoreDomain research cfgText modelType sample d sig).confidence =
      domainConfidence (sig.keywords.filter (fun kw => containsSubstr cfgText kw)).length
        sig.keywords.length (sig.model_types.contains modelType)
        (patMatches research sample sig).length sig.data_patterns.length
        (fldMatches sample sig).length sig.required_fields.length := by
  simp only [scoreDomain, domainConfidence, patMatches, fldMatches,
    guardPiece_eq, mtPiece_eq]

theorem domainConfidence_nonneg (mk tk : ℕ) (mm : Bool) (mp tp mf tf : ℕ) :
    0 ≤ domainConfidence mk tk mm mp tp mf tf := by
  unfold domainConfidence
  have h1 : ∀ (m t : ℕ) (w : ℚ), 0 ≤ w →
      0 ≤ (if m = 0 then 0 else (m : ℚ) / (t : ℚ) * w) := by
    intro m t w hw
    split
    · exact le_refl 0
    · exact mul_nonneg (div_nonneg (Nat.cast_nonneg m) (Nat.cast_nonneg t)) hw
  have h2 : (0 : ℚ) ≤ (if mm then 3/10 else 0) := by split <;> norm_num
  have := h1 mk tk (4/10) (by norm_num)
  have := h1 mp tp (2/10) (by norm_num)
  have := h1 mf tf (1/10) (by norm_num)
  linarith

theorem domainConfidence_le_one (mk tk : ℕ) (mm : Bool) (mp tp mf tf : ℕ)
    (hk : mk ≤ tk) (hp : mp ≤ tp) (hf : mf ≤ tf) :
    domainConfidence mk tk mm mp tp mf tf ≤ 1 := by
  unfold domainConfidence
  have key : ∀ (m t : ℕ) (w : ℚ), m ≤ t → 0 ≤ w →
      (if m = 0 then 0 else (m : ℚ) / (t : ℚ) * w) ≤ w := by
    intro m t w hmt hw
    split
    · exact hw
    · have ht : (0 : ℚ) < (t : ℚ) := by
        have hm : m ≠ 0 := by assumption
        have : 1 ≤ t := le_trans (Nat.one_le_iff_ne_zero.mpr hm) hmt
        exact_mod_cast Nat.lt_of_lt_of_le Nat.zero_lt_one this
      have hdiv : (m : ℚ) / (t : ℚ) ≤ 1 := by
        rw [div_le_one ht]
        exact_mod_cast hmt
      calc (m : ℚ) / (t : ℚ) * w ≤ 1 * w :=
            mul_le_mul_of_nonneg_right hdiv hw
        _ = w := one_mul w
  have h1 := key mk tk (4/10) hk (by norm_num)
  have h2 : (if mm then (3 : ℚ)/10 else 0) ≤ 3/10 := by split <;> norm_num
  have h3 := key mp tp (2/10) hp (by norm_num)
  have h4 := key mf tf (1/10) hf (by norm_num)
  linarith

/-- C4: every returned domain match has confidence in `[0, 1]`; the
confidence is exactly the weighted four-signal sum of `domainConfidence`
(keyword fraction times 0.4, flat 0.3 for a model-type match, pattern
fraction times 0.2, required-field fraction times 0.1); one extra matching
keyword never decreases it; matches come back sorted by descending
confidence; and `is_confident` holds exactly at confidence at least 0.7. -/
theorem C4_domain_detection_confidence :
    (∀ (research : String → String → Bool) (sigs : List (String × DomainSignature))
        (cfgText modelType : String) (sample : SampleData),
      ∀ m ∈ detectDomain research sigs cfgText modelType sample,
        0 ≤ m.confidence ∧ m.confidence ≤ 1) ∧
    (∀ (research : String → String → Bool) (cfgText modelType : String)
        (sample : SampleData) (d : String) (sig : DomainSignature),
      (scoreDomain research cfgText modelType sample d sig).confidence =
        domainConfidence
          (sig.keywords.filter (fun kw => containsSubstr cfgText kw)).length
          sig.keywords.length (sig.model_types.contains modelType)
          (patMatches research sample sig).length sig.data_patterns.length
          (fldMatches sample sig).length sig.required_fields.length) ∧
    (∀ (mk tk : ℕ) (mm : Bool) (mp tp mf tf : ℕ), mk + 1 ≤ tk →
      domainConfidence mk tk mm mp tp mf tf ≤
        domainConfidence (mk + 1) tk mm mp tp mf tf) ∧
    (∀ (research : String → String → Bool) (sigs : List (String × DomainSignature))
        (cfgText modelType : String) (sample : SampleData),
      (detectDomain research sigs cfgText modelType sample).Pairwise
        (fun a b => b.confidence ≤ a.confidence)) ∧
    (∀ m : DomainMatch, m.is_confident = true ↔ (7 : ℚ)/10 ≤ m.confidence) := by
  refine ⟨?_, scoreDomain_confidence_eq, ?_, ?_, ?_⟩
  · intro research sigs cfgText modelType sample m hm
    rw [detectDomain, mem_sortByConfidenceDesc] at hm
    rcases List.mem_filterMap.mp hm with ⟨ds, _, hds⟩
    by_cases hpos :
        0 < (scoreDomain research cfgText modelType sample ds.1 ds.2).confidence
    · rw [if_pos hpos, Option.some_inj] at hds
      subst hds
      refine ⟨le_of_lt hpos, ?_⟩
      rw [scoreDomain_confidence_eq]
      exact domainConfidence_le_one _ _ _ _ _ _ _
        (List.length_filter_le _ _)
        (by
          unfold patMatches
          split
          · exact List.length_filter_le _ _
          · exact Nat.zero_le _)
        (by
          unfold fldMatches
          split
          · exact List.length_filter_le _ _
          · exact Nat.zero_le _)
    · rw [if_neg hpos] at hds
      cases hds
  · intro mk tk mm mp tp mf tf hk
    unfold domainConfidence
    have hstep : (if mk = 0 then 0 else (mk : ℚ) / (tk : ℚ) * (4/10)) ≤
        (if mk + 1 = 0 then 0 else ((mk : ℚ) + 1) / (tk : ℚ) * (4/10)) := by
      have ht : (0 : ℚ) < (tk : ℚ) := by
        exact_mod_cast Nat.lt_of_lt_of_le (Nat.zero_lt_succ mk) hk
      rw [if_neg (Nat.succ_ne_zero mk)]
      split
      · positivity
      · have hdd : (mk : ℚ) / (tk : ℚ) ≤ ((mk : ℚ) + 1) / (tk : ℚ) := by
          gcongr
          linarith
        exact mul_le_mul_of_nonneg_right hdd (by norm_num)
    push_cast
    push_cast at hstep
    linarith
  · intro research sigs cfgText modelType sample
    exact pairwise_sortByConfidenceDesc _
  · intro m
    simp [DomainMatch.is_confident]

/-- C4 witness: the bound conjunct applied to the single match that a
one-signature table produces on a model-type-only hit, and the keyword
monotonicity conjunct at counts 1 and 2 out of 2. -/
theorem C4_domain_detection_confidence_witness :
    (0 ≤ (DomainMatch.mk "fin" (0 + 3/10 + 0 + 0) [] [] [] ["x"]).confidence ∧
     (DomainMatch.mk "fin" (0 + 3/10 + 0 + 0) [] [] [] ["x"]).confidence ≤ 1) ∧
    domainConfidence 1 2 false 0 0 0 0 ≤ domainConfidence 2 2 false 0 0 0 0 := by
  constructor
  · have hdet : detectDomain (fun _ _ => false)
        [("fin", ⟨[], [], [], ["x"], 7/10⟩)] "" "x" SampleData.noneData =
        [DomainMatch.mk "fin" (0 + 3/10 + 0 + 0) [] [] [] ["x"]] := by
      norm_num [detectDomain, scoreDomain, sortByConfidenceDesc, insertDesc,
        SampleData.noneData, List.filterMap_cons, List.filterMap_nil]
    exact C4_domain_detection_confidence.1 (fun _ _ => false)
      [("fin", ⟨[], [], [], ["x"], 7/10⟩)] "" "x" SampleData.noneData
      (DomainMatch.mk "fin" (0 + 3/10 + 0 + 0) [] [] [] ["x"])
      (by rw [hdet]; exact List.mem_cons_self _ _)
  · exact C4_domain_detection_confidence.2.2.1 1 2 false 0 0 0 0 (by norm_num)

/-- C6 witness: a two-member composition whose second member fails stops with
the partial results, while an all-completed pair runs to completion. -/
theorem C6_composed_primitive_semantics_witness :
    composedExecute
        [({ status := .completed, data := (1 : ℕ), errors := [],
            warnings := ["w1"], metrics := [("m", 1)] } : PrimResult ℕ),
         { status := .failed, data := 2, errors := ["boom"] }] =
      { status := .failed,
        data := [{ status := .completed, data := 1, warnings := ["w1"],
                   metrics := [("m", 1)] },
                 { status := .failed, data := 2, errors := ["boom"] }],
        errors := ["boom"], warnings := ["w1"], metrics := [("m", 1)] } ∧
    composedExecute [({ status := .completed, data := (7 : ℕ) } : PrimResult ℕ)] =
      { status := .completed, data := [{ status := .completed, data := 7 }] } := by
  constructor
  · have := C6_composed_primitive_semantics.2 ℕ
      [{ status := .completed, data := (1 : ℕ), errors := [],
         warnings := ["w1"], metrics := [("m", 1)] }]
      { status := .failed, data := 2, errors := ["boom"] } []
      (by intro x hx; simp at hx; subst hx; simp) rfl
    simpa [dictUpdate, dictInsert] using this
  · have := C6_composed_primitive_semantics.1 ℕ
      [{ status := .completed, data := (7 : ℕ) }] (by intro x hx; simp at hx; subst hx; simp)
    simpa using this

/-! ## C5 helper lemmas -/

theorem runWave_fst_length (behavior : ℕ → ℕ → Bool) (ready : List ℕ)
    (ts : List VTask) (completed : Finset ℕ) :
    (runWave behavior ready (ts, completed)).1.length = ts.length := by
  induction ready generalizing ts completed with
  | nil => rfl
  | cons i rest ih =>
    simp only [runWave]
    rw [ih]
    exact List.length_set ..

theorem runWave_snd_superset (behavior : ℕ → ℕ → Bool) (ready : List ℕ)
    (ts : List VTask) (completed : Finset ℕ) :
    completed ⊆ (runWave behavior ready (ts, completed)).2 := by
  induction ready generalizing ts completed with
  | nil => exact fun x hx => hx
  | cons i rest ih =>
    intro x hx
    exact ih _ _ (Finset.mem_insert_of_mem hx)

theorem runWave_snd_card_lt (behavior : ℕ → ℕ → Bool) (i : ℕ) (rest : List ℕ)
    (ts : List VTask) (completed : Finset ℕ) (hi : i ∉ completed) :
    completed.card < (runWave behavior (i :: rest) (ts, completed)).2.card := by
  have hsub : insert i completed ⊆ (runWave behavior (i :: rest) (ts, completed)).2 := by
    simpa [runWave] using runWave_snd_superset behavior rest
      (ts.set i (executeTask behavior i (ts.getD i dummyVTask))) (insert i completed)
  calc completed.card < (insert i completed).card := by
        rw [Finset.card_insert_of_not_mem hi]; omega
    _ ≤ _ := Finset.card_le_card hsub

theorem runWave_snd_not_mem (behavior : ℕ → ℕ → Bool) (ready : List ℕ)
    (ts : List VTask) (completed : Finset ℕ) (j : ℕ)
    (hj1 : j ∉ ready) (hj2 : j ∉ completed) :
    j ∉ (runWave behavior ready (ts, completed)).2 := by
  induction ready generalizing ts completed with
  | nil => exact hj2
  | cons i rest ih =>
    have hji : j ≠ i := fun h => hj1 (h ▸ List.mem_cons_self i rest)
    have hjr : j ∉ rest := fun h => hj1 (List.mem_cons_of_mem i h)
    exact ih _ _ hjr (by simp [Finset.mem_insert, hji, hj2])

theorem runWave_fst_getD_not_mem (behavior : ℕ → ℕ → Bool) (ready : List ℕ)
    (ts : List VTask) (completed : Finset ℕ) (j : ℕ) (hj : j ∉ ready) :
    (runWave behavior ready (ts, completed)).1.getD j dummyVTask =
      ts.getD j dummyVTask := by
  induction ready generalizing ts completed with
  | nil => rfl
  | cons i rest ih =>
    have hji : i ≠ j := fun h => hj (h ▸ List.mem_cons_self i rest)
    have hjr : j ∉ rest := fun h => hj (List.mem_cons_of_mem i h)
    simp only [runWave]
    rw [ih _ _ hjr]
    simp [List.getD_eq_getElem?_getD, List.getElem?_set_ne hji]

theorem runWave_snd_subset_union (behavior : ℕ → ℕ → Bool) (ready : List ℕ)
    (ts : List VTask) (completed : Finset ℕ) :
    (runWave behavior ready (ts, completed)).2 ⊆ completed ∪ ready.toFinset := by
  induction ready generalizing ts completed with
  | nil => simp [runWave]
  | cons i rest ih =>
    intro x hx
    have := ih (ts.set i (executeTask behavior i (ts.getD i dummyVTask)))
      (insert i completed) hx
    rcases Finset.mem_union.mp this with h | h
    · rcases Finset.mem_insert.mp h with rfl | h2
      · simp
      · exact Finset.mem_union_left _ h2
    · apply Finset.mem_union_right
      simp only [List.toFinset_cons, Finset.mem_insert]
      exact Or.inr (by simpa using h)

theorem mem_readyTasks (ts : List VTask) (completed : Finset ℕ) (i : ℕ)
    (h : i ∈ readyTasks ts completed) :
    i < ts.length ∧ i ∉ completed ∧
    (ts.getD i dummyVTask).status = VStatus.pending ∧
    ∀ d ∈ (ts.getD i dummyVTask).deps, d ∈ completed := by
  simp only [readyTasks, List.mem_filter, List.mem_range, Bool.and_eq_true,
    Bool.not_eq_eq_eq_not, Bool.not_true, decide_eq_false_iff_not,
    decide_eq_true_eq, List.all_eq_true] at h
  exact ⟨h.1, h.2.1.1, by simpa using h.2.1.2, fun d hd => h.2.2 d hd⟩

/-! ## C5 cycle theorems -/

theorem executeTasksAux_cycle (behavior : ℕ → ℕ → Bool) (S : Finset ℕ)
    (hne : S.Nonempty) :
    ∀ (n : ℕ) (ts : List VTask) (completed : Finset ℕ),
      ts.length - completed.card = n →
      (∀ i ∈ S, i < ts.length ∧ (ts.getD i dummyVTask).status = VStatus.pending ∧
        ∃ d ∈ (ts.getD i dummyVTask).deps, d ∈ S) →
      (∀ i ∈ S, i ∉ completed) →
      completed ⊆ Finset.range ts.length →
      executeTasksAux behavior ts completed =
        .error "Circular dependency detected in validation pipeline" := by
  intro n
  induction n using Nat.strong_induction_on with
  | _ n ih =>
    intro ts completed hmeas hS hdisj hsub
    obtain ⟨i0, hi0⟩ := hne
    have hcard : completed.card < ts.length := by
      have hss : completed ⊂ Finset.range ts.length :=
        ⟨hsub, fun hco => (hdisj i0 hi0)
          (hco (Finset.mem_range.mpr (hS i0 hi0).1))⟩
      have := Finset.card_lt_card hss
      simpa using this
    have hreadyS : ∀ j ∈ readyTasks ts completed, j ∉ S := by
      intro j hj hjS
      obtain ⟨-, -, -, hdeps⟩ := mem_readyTasks ts completed j hj
      obtain ⟨-, -, d, hd, hdS⟩ := hS j hjS
      exact hdisj d hdS (hdeps d hd)
    rw [executeTasksAux]
    rw [dif_pos hcard]
    split
    · rfl
    next i rest hr =>
      have hiready : i ∈ readyTasks ts completed := by
        rw [hr]; exact List.mem_cons_self i rest
      have hinotin : i ∉ completed := (mem_readyTasks ts completed i hiready).2.1
      have hSnotready : ∀ j ∈ S, j ∉ (i :: rest : List ℕ) := by
        intro j hjS hjr
        exact hreadyS j (hr ▸ hjr) hjS
      refine ih _ ?_ _ _ rfl ?_ ?_ ?_
      · have hlen := runWave_fst_length behavior (i :: rest) ts completed
        have hcard2 := runWave_snd_card_lt behavior i rest ts completed hinotin
        omega
      · intro j hjS
        have hnr := hSnotready j hjS
        rw [runWave_fst_length, runWave_fst_getD_not_mem behavior _ _ _ j hnr]
        exact hS j hjS
      · intro j hjS
        exact runWave_snd_not_mem behavior _ _ _ j (hSnotready j hjS) (hdisj j hjS)
      · intro x hx
        rcases Finset.mem_union.mp
          (runWave_snd_subset_union behavior (i :: rest) ts completed hx) with h | h
        · rw [runWave_fst_length]
          exact hsub h
        · rw [runWave_fst_length]
          have hxready : x ∈ readyTasks ts completed := hr ▸ List.mem_toFinset.mp h
          exact Finset.mem_range.mpr (mem_readyTasks ts completed x hxready).1

theorem vosWave_pending_not_mem (behavior : String → ℕ → PStatus)
    (plan : VosPlan) (ready : List String) (st : VosState) (j : String)
    (hj1 : j ∉ ready) (hj2 : j ∈ st.pending) :
    j ∈ (vosWave behavior plan ready st).pending := by
  induction ready generalizing st with
  | nil => exact hj2
  | cons n rest ih =>
    have hjn : j ≠ n := fun h => hj1 (h ▸ List.mem_cons_self n rest)
    have hjr : j ∉ rest := fun h => hj1 (List.mem_cons_of_mem n h)
    simp only [vosWave]
    split
    · exact ih _ hjr (by simpa [Finset.mem_erase, hjn] using hj2)
    · exact ih _ hjr (by simpa [Finset.mem_erase, hjn] using hj2)

theorem vosWave_executed_not_mem (behavior : String → ℕ → PStatus)
    (plan : VosPlan) (ready : List String) (st : VosState) (j : String)
    (hj1 : j ∉ ready) (hj2 : j ∉ st.executed) :
    j ∉ (vosWave behavior plan ready st).executed := by
  induction ready generalizing st with
  | nil => exact hj2
  | cons n rest ih =>
    have hjn : j ≠ n := fun h => hj1 (h ▸ List.mem_cons_self n rest)
    have hjr : j ∉ rest := fun h => hj1 (List.mem_cons_of_mem n h)
    simp only [vosWave]
    split
    · exact ih _ hjr (by simp [Finset.mem_insert, hjn, hj2])
    · exact ih _ hjr (by simp [Finset.mem_insert, hjn, hj2])

theorem vosWave_pending_subset2 (behavior : String → ℕ → PStatus)
    (plan : VosPlan) (ready : List String) (st : VosState) :
    (vosWave behavior plan ready st).pending ⊆ st.pending := by
  induction ready generalizing st with
  | nil => exact fun x hx => hx
  | cons n rest ih =>
    intro x hx
    simp only [vosWave] at hx
    split at hx
    · exact Finset.erase_subset _ _ (ih _ hx)
    · exact Finset.erase_subset _ _ (ih _ hx)

theorem vosWave_pending_card_lt2 (behavior : String → ℕ → PStatus)
    (plan : VosPlan) (n : String) (rest : List String) (st : VosState)
    (hn : n ∈ st.pending) :
    (vosWave behavior plan (n :: rest) st).pending.card < st.pending.card := by
  have hnot : n ∉ (vosWave behavior plan (n :: rest) st).pending := by
    intro hmem
    simp only [vosWave] at hmem
    split at hmem
    · exact (Finset.not_mem_erase n _) (vosWave_pending_subset2 behavior plan rest _ hmem)
    · exact (Finset.not_mem_erase n _) (vosWave_pending_subset2 behavior plan rest _ hmem)
  exact Finset.card_lt_card
    ⟨vosWave_pending_subset2 behavior plan (n :: rest) st,
     fun hcontra => hnot (hcontra hn)⟩

theorem mem_vosReady (plan : VosPlan) (st : VosState) (p : String)
    (h : p ∈ vosReady plan st) :
    p ∈ st.pending ∧ ∀ d ∈ depsOf plan p, d ∈ st.executed := by
  simp only [vosReady, List.mem_filter, Bool.and_eq_true, decide_eq_true_eq,
    List.all_eq_true] at h
  exact ⟨h.2.1, fun d hd => by simpa using h.2.2 d hd⟩

theorem executeAdaptiveAux_cycle (behavior : String → ℕ → PStatus)
    (plan : VosPlan) (S : Finset String) (hne : S.Nonempty) :
    ∀ (n : ℕ) (st : VosState), st.pending.card = n →
      (∀ p ∈ S, p ∈ st.pending ∧ ∃ d ∈ depsOf plan p, d ∈ S) →
      (∀ p ∈ S, p ∉ st.executed) →
      executeAdaptiveAux behavior plan st =
        .error "Circular dependency detected in orchestration plan" := by
  intro n
  induction n using Nat.strong_induction_on with
  | _ n ih =>
    intro st hmeas hS hexec
    obtain ⟨p0, hp0⟩ := hne
    have hpend : st.pending.Nonempty := ⟨p0, (hS p0 hp0).1⟩
    have hreadyS : ∀ j ∈ vosReady plan st, j ∉ S := by
      intro j hj hjS
      obtain ⟨-, hdeps⟩ := mem_vosReady plan st j hj
      obtain ⟨-, d, hd, hdS⟩ := hS j hjS
      exact hexec d hdS (hdeps d hd)
    rw [executeAdaptiveAux]
    rw [dif_pos hpend]
    split
    · rfl
    next m rest hr =>
      have hmready : m ∈ vosReady plan st := by
        rw [hr]; exact List.mem_cons_self m rest
      have hmpend : m ∈ st.pending := (mem_vosReady plan st m hmready).1
      have hSnotready : ∀ j ∈ S, j ∉ (m :: rest : List String) := by
        intro j hjS hjr
        exact hreadyS j (hr ▸ hjr) hjS
      refine ih _ ?_ _ rfl ?_ ?_
      · have := vosWave_pending_card_lt2 behavior plan m rest st hmpend
        omega
      · intro p hpS
        refine ⟨vosWave_pending_not_mem behavior plan _ st p
          (hSnotready p hpS) (hS p hpS).1, (hS p hpS).2⟩
      · intro p hpS
        exact vosWave_executed_not_mem behavior plan _ st p
          (hSnotready p hpS) (hexec p hpS)

/-- C5: a dependency cycle among uncompleted elements makes both schedulers
raise their circular-dependency error: any task set with a nonempty family of
pending tasks each depending on another family member drives the Validation
Orchestrator wave loop into its `DependencyError`, and any adaptive VOS plan
with such a family among its primitives drives `_execute_adaptive` into its
`ValidationError`; both loop embeddings are total functions, so neither can
loop forever or deadlock. -/
theorem C5_circular_dependency_error :
    (∀ (behavior : ℕ → ℕ → Bool) (ts : List VTask) (S : Finset ℕ),
      S.Nonempty →
      (∀ i ∈ S, i < ts.length ∧ (ts.getD i dummyVTask).status = VStatus.pending ∧
        ∃ d ∈ (ts.getD i dummyVTask).deps, d ∈ S) →
      executeTasks behavior ts =
        .error "Circular dependency detected in validation pipeline") ∧
    (∀ (behavior : String → ℕ → PStatus) (plan : VosPlan) (S : Finset String),
      S.Nonempty →
      (∀ p ∈ S, p ∈ plan.primitives ∧ ∃ d ∈ depsOf plan p, d ∈ S) →
      executeAdaptive behavior plan =
        .error "Circular dependency detected in orchestration plan") := by
  constructor
  · intro behavior ts S hne hS
    exact executeTasksAux_cycle behavior S hne _ ts ∅ rfl hS (by simp) (by simp)
  · intro behavior plan S hne hS
    apply executeAdaptiveAux_cycle behavior plan S hne _ _ rfl
    · intro p hp
      exact ⟨by simpa using (hS p hp).1, (hS p hp).2⟩
    · intro p hp
      simp [executeAdaptive]

/-- C5 witness: the two-element cycle `A depends on B, B depends on A`, in
task-index form for the Validation Orchestrator and in named-primitive form
for the VOS adaptive mode. -/
theorem C5_circular_dependency_error_witness :
    executeTasks (fun _ _ => false) [{ deps := [1] }, { deps := [0] }] =
      .error "Circular dependency detected in validation pipeline" ∧
    executeAdaptive (fun _ _ => PStatus.completed)
      { primitives := ["A", "B"],
        dependencies := [("A", ["B"]), ("B", ["A"])] } =
      .error "Circular dependency detected in orchestration plan" := by
  constructor
  · exact C5_circular_dependency_error.1 (fun _ _ => false)
      [{ deps := [1] }, { deps := [0] }] {0, 1} ⟨0, by decide⟩ (by decide)
  · exact C5_circular_dependency_error.2 (fun _ _ => PStatus.completed)
      { primitives := ["A", "B"], dependencies := [("A", ["B"]), ("B", ["A"])] }
      {"A", "B"} ⟨"A", by decide⟩ (by decide)

/-- C2: evaluation of the task scheduler at the claimed retry scenario: a
single dependency-free task whose callable raises on its first invocation and
would succeed on any later one.  The run returns normally, but the task was
executed exactly once: the retry logic of `_execute_task` reset it to pending
and incremented its retry counter, yet `_execute_tasks` had already added it
to the completed set, so no later wave ever re-executes it. -/
theorem C2_failed_task_never_rescheduled :
    executeTasks (fun _ attempt => decide (attempt = 0)) [{ deps := [] }] =
      .ok [{ deps := [], status := VStatus.pending, retry_count := 1,
             max_retries := 3, has_func := true, exec_count := 1 }] := by
  unfold executeTasks
  rw [executeTasksAux]
  rw [dif_pos (by simp)]
  split
  · next heq =>
    rw [show readyTasks [({ deps := [] } : VTask)] ∅ = [0] from by decide] at heq
    cases heq
  · next i rest heq =>
    rw [show readyTasks [({ deps := [] } : VTask)] ∅ = [0] from by decide] at heq
    injection heq with h1 h2
    subst h1
    subst h2
    rw [show (runWave (fun _ attempt => decide (attempt = 0)) [0]
        ([({ deps := [] } : VTask)], ∅)).1 =
        [{ deps := [], status := VStatus.pending, retry_count := 1,
           max_retries := 3, has_func := true, exec_count := 1 }] from by decide]
    rw [show (runWave (fun _ attempt => decide (attempt = 0)) [0]
        ([({ deps := [] } : VTask)], ∅)).2 = ({0} : Finset ℕ) from by decide]
    rw [executeTasksAux]
    rw [dif_neg (by simp)]


/-! ## C10: memory cache stays within its capacity bound -/

theorem minAccessEntry_mem {α : Type} (best : MCacheEntry α)
    (l : List (MCacheEntry α)) : minAccessEntry best l ∈ best :: l := by
  induction l generalizing best with
  | nil => simp [minAccessEntry]
  | cons e rest ih =>
    rw [minAccessEntry]
    split
    · exact List.mem_cons_of_mem best (ih e)
    · rcases List.mem_cons.mp (ih best) with h | h
      · rw [h]; exact List.mem_cons_self ..
      · exact List.mem_cons_of_mem best (List.mem_cons_of_mem e h)

theorem evict_spec {α : Type} (c : MemoryCache α) (h : c.entries ≠ []) :
    c.evict.entries.length + 1 = c.entries.length ∧
    c.evict.stats.evictions = c.stats.evictions + 1 ∧
    c.evict.max_size = c.max_size ∧
    c.evict.eviction_policy = c.eviction_policy ∧
    (∀ x ∈ c.evict.entries, x ∈ c.entries) := by
  obtain ⟨M, pol, entries, stats⟩ := c
  rcases entries with _ | ⟨e, rest⟩
  · simp at h
  · rcases pol with _ | _ | _
    · exact ⟨rfl, rfl, rfl, rfl, fun x hx => List.mem_cons_of_mem e hx⟩
    · refine ⟨?_, rfl, rfl, rfl, fun x hx => ?_⟩
      · exact List.length_eraseP_add_one (minAccessEntry_mem e rest) (by simp)
      · have hx2 : x ∈ (e :: rest).eraseP
            (fun y => y.key = (minAccessEntry e rest).key) := hx
        exact List.mem_of_mem_eraseP hx2
    · exact ⟨rfl, rfl, rfl, rfl, fun x hx => List.mem_cons_of_mem e hx⟩

theorem cacheKeys_mono {α : Type} {c d : MemoryCache α}
    (h : ∀ x ∈ d.entries, x ∈ c.entries) :
    ∀ k ∈ cacheKeys d, k ∈ cacheKeys c := by
  intro k hk
  rcases List.mem_map.mp hk with ⟨x, hx, rfl⟩
  exact List.mem_map_of_mem _ (h x hx)

theorem get_entries_length {α : Type} (c : MemoryCache α) (key : String)
    (now : ℚ) :
    (c.get key now).2.entries.length ≤ c.entries.length ∧
    (c.get key now).2.max_size = c.max_size ∧
    (c.get key now).2.eviction_policy = c.eviction_policy := by
  unfold MemoryCache.get
  rcases hf : c.entries.find? (fun e => e.key = key) with _ | e <;>
    simp only [hf]
  · exact ⟨le_refl _, by trivial, by trivial⟩
  · have he_mem : e ∈ c.entries := List.mem_of_find?_eq_some hf
    have he_key : e.key = key := by
      have := List.find?_some hf
      simpa using this
    by_cases hex : e.is_expired now
    · simp only [hex, if_true]
      exact ⟨by simpa using List.length_eraseP_le _, by trivial, by trivial⟩
    · rw [if_neg hex]
      by_cases hlru : c.eviction_policy = EvictionPolicy.lru
      · simp only [hlru, if_pos rfl]
        have htouched_mem : e.touch now ∈
            c.entries.map (fun x => if x.key = key then e.touch now else x) := by
          have := List.mem_map_of_mem
            (fun x => if x.key = key then e.touch now else x) he_mem
          simpa [he_key] using this
        have hkey_touch : (e.touch now).key = key := he_key
        have herase := List.length_eraseP_add_one
          (p := fun x => decide (x.key = key)) htouched_mem
          (by simp [MCacheEntry.touch, he_key])
        refine ⟨?_, by trivial, by trivial⟩
        have hml : (c.entries.map
            (fun x => if x.key = key then e.touch now else x)).length =
            c.entries.length := List.length_map ..
        simp only [if_true, List.length_append, List.length_cons,
          List.length_nil]
        omega
      · simp only [if_neg hlru]
        exact ⟨by simp, by trivial, by trivial⟩

theorem set_spec {α : Type} (c : MemoryCache α) (key : String) (v : α)
    (ttl : Option ℚ) (now : ℚ)
    (hlen : c.entries.length ≤ c.max_size) (hmax : 1 ≤ c.max_size) :
    (c.set key v ttl now).max_size = c.max_size ∧
    (key ∈ cacheKeys c →
      (c.set key v ttl now).entries.length = c.entries.length ∧
      (c.set key v ttl now).stats.evictions = c.stats.evictions) ∧
    (key ∉ cacheKeys c → c.entries.length = c.max_size →
      (c.set key v ttl now).entries.length = c.max_size ∧
      (c.set key v ttl now).stats.evictions = c.stats.evictions + 1) ∧
    (key ∉ cacheKeys c → c.entries.length < c.max_size →
      (c.set key v ttl now).entries.length = c.entries.length + 1 ∧
      (c.set key v ttl now).stats.evictions = c.stats.evictions) := by
  by_cases hmem : key ∈ cacheKeys c
  · refine ⟨?_, fun _ => ⟨?_, ?_⟩, fun hno => absurd hmem hno,
      fun hno => absurd hmem hno⟩ <;>
    simp [MemoryCache.set, hmem]
  · by_cases hfull : c.entries.length = c.max_size
    · have hne : c.entries ≠ [] := by
        intro hnil
        rw [hnil] at hfull
        simp at hfull
        omega
      have hev := evict_spec c hne
      have hmem2 : key ∉ cacheKeys c.evict :=
        fun hc2 => hmem (cacheKeys_mono hev.2.2.2.2 key hc2)
      have hle : c.max_size ≤ c.entries.length := le_of_eq hfull.symm
      refine ⟨?_, fun hyes => absurd hyes hmem, fun _ _ => ⟨?_, ?_⟩,
        fun _ hlt => absurd hfull (Nat.ne_of_lt hlt)⟩
      · simp [MemoryCache.set, hmem, hmem2, hle, hev.2.2.1]
      · have h1 := hev.1
        simp [MemoryCache.set, hmem, hmem2, hle]
        omega
      · simp [MemoryCache.set, hmem, hmem2, hle, hev.2.1]
    · have hlt : c.entries.length < c.max_size := lt_of_le_of_ne hlen hfull
      have hnle : ¬ c.max_size ≤ c.entries.length := Nat.not_le.mpr hlt
      refine ⟨?_, fun hyes => absurd hyes hmem, fun _ heq => absurd heq hfull,
        fun _ _ => ⟨?_, ?_⟩⟩ <;>
      simp [MemoryCache.set, hmem, hnle]

theorem applyCacheOp_invariant {α : Type} (c : MemoryCache α) (op : CacheOp α)
    (hmax : 1 ≤ c.max_size) (hlen : c.entries.length ≤ c.max_size) :
    (applyCacheOp c op).entries.length ≤ c.max_size ∧
    (applyCacheOp c op).max_size = c.max_size := by
  rcases op with ⟨key, now⟩ | ⟨key, v, ttl, now⟩ | key <;>
    simp only [applyCacheOp]
  · have := get_entries_length c key now
    exact ⟨le_trans this.1 hlen, this.2.1⟩
  · have hs := set_spec c key v ttl now hlen hmax
    refine ⟨?_, hs.1⟩
    by_cases hmem : key ∈ cacheKeys c
    · rw [(hs.2.1 hmem).1]; exact hlen
    · by_cases hfull : c.entries.length = c.max_size
      · rw [(hs.2.2.1 hmem hfull).1]
      · have hlt : c.entries.length < c.max_size := lt_of_le_of_ne hlen hfull
        rw [(hs.2.2.2 hmem hlt).1]
        omega
  · unfold MemoryCache.delete
    split
    · exact ⟨le_trans (by simpa using List.length_eraseP_le _) hlen, rfl⟩
    · exact ⟨hlen, rfl⟩

/-- C10: starting from an empty cache with `max_size ≥ 1`, no sequence of
get/set/delete operations ever pushes the entry count above `max_size`; a set
evicts exactly one existing entry (eviction counter up by one, entry count
unchanged at capacity) precisely when the cache is full and the key is new,
while overwriting an existing key or inserting below capacity evicts
nothing. -/
theorem C10_cache_capacity_invariant :
    (∀ (α : Type) (policy : EvictionPolicy) (max_size : ℕ), 1 ≤ max_size →
      ∀ ops : List (CacheOp α),
        (applyCacheOps (MemoryCache.init α max_size policy) ops).entries.length ≤
          max_size) ∧
    (∀ (α : Type) (c : MemoryCache α) (key : String) (v : α) (ttl : Option ℚ)
        (now : ℚ), 1 ≤ c.max_size → c.entries.length ≤ c.max_size →
      ((c.entries.length = c.max_size → key ∉ cacheKeys c →
        (c.set key v ttl now).stats.evictions = c.stats.evictions + 1 ∧
        (c.set key v ttl now).entries.length = c.max_size) ∧
       (key ∈ cacheKeys c →
        (c.set key v ttl now).stats.evictions = c.stats.evictions ∧
        (c.set key v ttl now).entries.length = c.entries.length) ∧
       (c.entries.length < c.max_size → key ∉ cacheKeys c →
        (c.set key v ttl now).stats.evictions = c.stats.evictions ∧
        (c.set key v ttl now).entries.length = c.entries.length + 1))) := by
  constructor
  · intro α policy max_size hmax ops
    suffices h : ∀ (c : MemoryCache α), c.max_size = max_size →
        c.entries.length ≤ max_size →
        (applyCacheOps c ops).entries.length ≤ max_size by
      exact h _ rfl (by simp [MemoryCache.init])
    induction ops with
    | nil => intro c hcm hcl; simpa [applyCacheOps] using hcl
    | cons op rest ih =>
      intro c hcm hcl
      have hstep := applyCacheOp_invariant c op (hcm ▸ hmax) (hcm ▸ hcl)
      exact ih (applyCacheOp c op) (hstep.2.trans hcm) (hcm ▸ hstep.1)
  · intro α c key v ttl now hmax hlen
    have hs := set_spec c key v ttl now hlen hmax
    exact ⟨fun hfull hmem => ⟨(hs.2.2.1 hmem hfull).2, (hs.2.2.1 hmem hfull).1⟩,
      fun hmem => ⟨(hs.2.1 hmem).2, (hs.2.1 hmem).1⟩,
      fun hlt hmem => ⟨(hs.2.2.2 hmem hlt).2, (hs.2.2.2 hmem hlt).1⟩⟩

/-- C10 witness: the invariant applied to a two-set sequence against an LRU
cache of capacity one, and the eviction characterization applied to an empty
cache receiving a fresh key. -/
theorem C10_cache_capacity_invariant_witness :
    (applyCacheOps (MemoryCache.init ℕ 1 EvictionPolicy.lru)
      [CacheOp.set "a" 1 none 0, CacheOp.set "b" 2 none 0]).entries.length ≤ 1 ∧
    ((MemoryCache.init ℕ 1 EvictionPolicy.lru).set "a" 1 none 0).stats.evictions =
        (MemoryCache.init ℕ 1 EvictionPolicy.lru).stats.evictions ∧
    ((MemoryCache.init ℕ 1 EvictionPolicy.lru).set "a" 1 none 0).entries.length =
        (MemoryCache.init ℕ 1 EvictionPolicy.lru).entries.length + 1 := by
  refine ⟨C10_cache_capacity_invariant.1 ℕ EvictionPolicy.lru 1 (le_refl 1) _, ?_⟩
  have h := (C10_cache_capacity_invariant.2 ℕ (MemoryCache.init ℕ 1 EvictionPolicy.lru)
    "a" 1 none 0 (le_refl 1) (by simp [MemoryCache.init])).2.2
    (by simp [MemoryCache.init]) (by simp [MemoryCache.init, cacheKeys])
  exact h


end Gatf
